import Mathlib

/-!
Verification of the static-analysis aggregation pipeline: a shallow
embedding of the two Python programs of this repository,
tools/pipeline/combine.py (bundle builder) and
tools/pipeline/render_html.py (report renderer), together with proofs
about the embedded definitions.

Modelling conventions:
  - JSON values are embedded as the inductive type Json below; JSON
    numbers are modelled as integers (float literals are outside the
    scope of this embedding).
  - Python exceptions are modelled with the Except monad over PyErr.
  - The filesystem is modelled as an explicit association list from
    path to text content, plus the set of created directories; reading
    a text file returns the decoded text (newline decoding of text
    mode is not re-modelled, contents are taken as already decoded).
  - Machine-level details (clocks, stdout buffering) are passed in as
    explicit parameters or collected in the run result.
-/

set_option maxRecDepth 100000

/-- A JSON value as produced by the json module of the Python standard
library when parsing artifact files; numbers are restricted to
integers in this embedding. Objects keep their key insertion order,
exactly as Python dictionaries do. -/
inductive Json where
  | null : Json
  | bool (b : Bool) : Json
  | num (n : Int) : Json
  | str (s : String) : Json
  | arr (elems : List Json) : Json
  | obj (fields : List (String × Json)) : Json

/-- Python exceptions that the two embedded programs can raise. -/
inductive PyErr where
  | fileNotFound (path : String)
  | jsonDecode
  | typeError
  | attributeError
deriving DecidableEq

/-- Decimal digit character for a value below ten, as produced by the
Python str function on integers. -/
def digitChar (n : Nat) : Char := Char.ofNat (48 + n)

/-- Accumulator loop behind the decimal rendering of a natural number
(the digits of n are prepended to acc, most significant first); the
fuel argument only bounds the recursion depth and one unit per digit
is always enough. -/
def natToDigitsAux (fuel : Nat) (n : Nat) (acc : List Char) : List Char :=
  match fuel with
  | 0 => acc
  | fuel + 1 =>
    if n < 10 then digitChar n :: acc
    else natToDigitsAux fuel (n / 10) (digitChar (n % 10) :: acc)

/-- Decimal digits of a natural number, most significant first; agrees
with the Python str function on non-negative int values. -/
def natToDigits (n : Nat) : List Char := natToDigitsAux (n + 1) n []

/-- Rendering of a Python int by str, also used by json.dumps for
integer values. -/
def intToChars (n : Int) : List Char :=
  if n < 0 then '-' :: natToDigits n.natAbs else natToDigits n.toNat

/-- Test for an ASCII decimal digit character. -/
def isDigitC (c : Char) : Bool := 48 ≤ c.toNat && c.toNat ≤ 57

/-- Numeric value of an ASCII decimal digit character. -/
def digitVal (c : Char) : Nat := c.toNat - 48

/-- Greedy scan of a run of decimal digits, accumulating their value
left to right, as the integer grammar of the json module does. -/
def digitsVal (s : List Char) (acc : Nat) : Nat × List Char :=
  match s with
  | [] => (acc, [])
  | c :: rest =>
    if isDigitC c then digitsVal rest (10 * acc + digitVal c) else (acc, c :: rest)

/-- Power-of-ten weight of the digit string of n: ten raised to the
number of decimal digits of n. -/
def tenPow (n : Nat) : Nat :=
  if n < 10 then 10 else 10 * tenPow (n / 10)
termination_by n
decreasing_by exact Nat.div_lt_self (by omega) (by omega)

/-- Lowercase hexadecimal digit character, as emitted by the unicode
escapes of json.dumps with its default ensure_ascii=True. -/
def hexDigitChar (n : Nat) : Char :=
  if n < 10 then Char.ofNat (48 + n) else Char.ofNat (87 + n)

/-- Numeric value of a hexadecimal digit character (upper or lower
case), as accepted by the \uXXXX escapes of the json parser. -/
def hexVal (c : Char) : Option Nat :=
  if 48 ≤ c.toNat && c.toNat ≤ 57 then some (c.toNat - 48)
  else if 97 ≤ c.toNat && c.toNat ≤ 102 then some (c.toNat - 87)
  else if 65 ≤ c.toNat && c.toNat ≤ 70 then some (c.toNat - 55)
  else none

/-- Four-character lowercase hexadecimal rendering of a value below
0x10000, used by the \uXXXX escapes of json.dumps. -/
def hex4 (n : Nat) : List Char :=
  [hexDigitChar (n / 4096 % 16), hexDigitChar (n / 256 % 16),
   hexDigitChar (n / 16 % 16), hexDigitChar (n % 16)]

/-- Reading of exactly four hexadecimal digits, the \uXXXX payload of
the json parser. -/
def readHex4 (s : List Char) : Option (Nat × List Char) :=
  match s with
  | c1 :: c2 :: c3 :: c4 :: rest =>
    match hexVal c1, hexVal c2, hexVal c3, hexVal c4 with
    | some a, some b, some c, some d => some (4096 * a + 256 * b + 16 * c + d, rest)
    | _, _, _, _ => none
  | _ => none

/-- Escape of one character inside a JSON string literal, following
the ensure_ascii encoder of the CPython json module: the two JSON
metacharacters and the five short control escapes come first, printable
ASCII is emitted verbatim, and every other character becomes one
\uXXXX escape or a UTF-16 surrogate pair of two such escapes. -/
def escChar (c : Char) : List Char :=
  if c = '\"' then ['\\', '\"']
  else if c = '\\' then ['\\', '\\']
  else if c = '\n' then ['\\', 'n']
  else if c = '\r' then ['\\', 'r']
  else if c = '\t' then ['\\', 't']
  else if c.toNat = 8 then ['\\', 'b']
  else if c.toNat = 12 then ['\\', 'f']
  else if 32 ≤ c.toNat && c.toNat ≤ 126 then [c]
  else if c.toNat < 65536 then '\\' :: 'u' :: hex4 c.toNat
  else
    let v := c.toNat - 65536
    ('\\' :: 'u' :: hex4 (55296 + v / 1024)) ++ ('\\' :: 'u' :: hex4 (56320 + v % 1024))

/-- JSON string literal for s, including the surrounding quotes, as
emitted by json.dumps with ensure_ascii=True. -/
def encodeString (s : String) : List Char :=
  '\"' :: (s.toList.flatMap escChar) ++ ['\"']

/-- Construction of a character from a scalar value, failing when the
value is not a valid unicode scalar value. -/
def mkChar? (n : Nat) : Option Char :=
  if _h : n.isValidChar then some (Char.ofNat n) else none

/-- Skipping of JSON whitespace (space, tab, newline, carriage
return), as the json parser does between tokens. -/
def skipWs : List Char → List Char
  | [] => []
  | c :: rest => if c = ' ' || c = '\t' || c = '\n' || c = '\r' then skipWs rest else c :: rest

/-- Assignment of a key in a Python dictionary represented as an
insertion-ordered association list: an existing key keeps its position
and receives the new value, a new key is appended at the end. -/
def pyDictInsert (d : List (String × Json)) (k : String) (v : Json) : List (String × Json) :=
  match d with
  | [] => [(k, v)]
  | (k0, v0) :: rest => if k0 = k then (k0, v) :: rest else (k0, v0) :: pyDictInsert rest k v

/-- Payload of a \uXXXX escape: four hexadecimal digits, with a
following low-surrogate escape recombined into one astral character
exactly as the json scanner does. -/
def parseUnicodeEscape (s : List Char) : Option (Char × List Char) :=
  match readHex4 s with
  | none => none
  | some (h, rest3) =>
    if 55296 ≤ h && h ≤ 56319 then
      match rest3 with
      | '\\' :: 'u' :: rest4 =>
        match readHex4 rest4 with
        | none => none
        | some (l, rest5) =>
          if 56320 ≤ l && l ≤ 57343 then
            match mkChar? (65536 + (h - 55296) * 1024 + (l - 56320)) with
            | some ch => some (ch, rest5)
            | none => none
          else none
      | _ => none
    else
      match mkChar? h with
      | some ch => some (ch, rest3)
      | none => none

/-- One escape sequence after the backslash, following the strict
scanner of the json module: one of the eight named escapes or a
\uXXXX escape with surrogate-pair recombination. Lone surrogate
escapes, which Python would keep as unpaired surrogate code units,
have no counterpart among unicode scalar values and are rejected
here. -/
def parseEscape (s : List Char) : Option (Char × List Char) :=
  match s with
  | [] => none
  | e :: rest2 =>
    if e = '\"' then some ('\"', rest2)
    else if e = '\\' then some ('\\', rest2)
    else if e = '/' then some ('/', rest2)
    else if e = 'b' then some (Char.ofNat 8, rest2)
    else if e = 'f' then some (Char.ofNat 12, rest2)
    else if e = 'n' then some ('\n', rest2)
    else if e = 'r' then some ('\r', rest2)
    else if e = 't' then some ('\t', rest2)
    else if e = 'u' then parseUnicodeEscape rest2
    else none

/-- Body of a JSON string literal after the opening quote, following
the strict scanner of the json module: a closing quote ends the
literal, a backslash introduces an escape, unescaped control
characters are rejected, and any other character stands for itself.
Fuel decreases once per decoded character and one unit per remaining
input character always suffices. -/
def parseStringBody (fuel : Nat) (acc : List Char) (s : List Char) : Option (String × List Char) :=
  match fuel with
  | 0 => none
  | fuel + 1 =>
    match s with
    | [] => none
    | c :: rest =>
      if c = '\"' then some ((acc.reverse).asString, rest)
      else if c = '\\' then
        match parseEscape rest with
        | some p => parseStringBody fuel (p.1 :: acc) p.2
        | none => none
      else if c.toNat < 32 then none
      else parseStringBody fuel (c :: acc) rest

/-- Full JSON string literal parse, applied to the input right after
the opening quote; the internal fuel of one step per remaining input
character always suffices. -/
def parseString (s : List Char) : Option (String × List Char) :=
  parseStringBody (s.length + 1) [] s

/-- Integer literal of the json grammar: an optional minus sign
followed by a digit run. Floating point continuations, which the
Python parser would turn into float values, are outside this
embedding and are left unconsumed. -/
def parseIntPart (s : List Char) : Option (Int × List Char) :=
  match s with
  | [] => none
  | c :: rest =>
    if c = '-' then
      match rest with
      | [] => none
      | c2 :: rest2 =>
        if isDigitC c2 then
          let p := digitsVal (c2 :: rest2) 0
          some (-(Int.ofNat p.1), p.2)
        else none
    else if isDigitC c then
      let p := digitsVal (c :: rest) 0
      some (Int.ofNat p.1, p.2)
    else none

mutual

/-- Recursive-descent JSON value parser of the json module, with
explicit fuel: one unit per parsed value and per aggregate item. The
constant literals true, false and null, the four leaf forms and the
two aggregate forms are recognized exactly as in the json grammar. -/
def parseVal : Nat → List Char → Option (Json × List Char)
  | 0, _ => none
  | fuel + 1, s =>
    match skipWs s with
    | [] => none
    | c :: rest =>
      if c = '\x7b' then
        match skipWs rest with
        | [] => none
        | c2 :: rest2 =>
          if c2 = '\x7d' then some (Json.obj [], rest2)
          else parseObjItems fuel [] (c2 :: rest2)
      else if c = '[' then
        match skipWs rest with
        | [] => none
        | c2 :: rest2 =>
          if c2 = ']' then some (Json.arr [], rest2)
          else parseArrItems fuel [] (c2 :: rest2)
      else if c = '\"' then
        match parseString rest with
        | some (str, rest2) => some (Json.str str, rest2)
        | none => none
      else if c = 't' then
        match rest with
        | 'r' :: 'u' :: 'e' :: rest2 => some (Json.bool true, rest2)
        | _ => none
      else if c = 'f' then
        match rest with
        | 'a' :: 'l' :: 's' :: 'e' :: rest2 => some (Json.bool false, rest2)
        | _ => none
      else if c = 'n' then
        match rest with
        | 'u' :: 'l' :: 'l' :: rest2 => some (Json.null, rest2)
        | _ => none
      else if c = '-' || isDigitC c then
        match parseIntPart (c :: rest) with
        | some (n, rest2) => some (Json.num n, rest2)
        | none => none
      else none

/-- Member loop of a JSON object, entered on the first character of
the first key (whitespace already skipped, the empty object handled by
the caller); members are assigned into the growing dictionary exactly
as dict construction does in Python, the last value of a repeated key
winning while the first occurrence keeps its position. -/
def parseObjItems : Nat → List (String × Json) → List Char → Option (Json × List Char)
  | 0, _, _ => none
  | fuel + 1, acc, s =>
    match s with
    | [] => none
    | c :: rest =>
      if c = '\"' then
      match parseString rest with
      | none => none
      | some (k, rest2) =>
        match skipWs rest2 with
        | ':' :: rest3 =>
          match parseVal fuel rest3 with
          | none => none
          | some (v, rest4) =>
            match skipWs rest4 with
            | ',' :: rest5 => parseObjItems fuel (pyDictInsert acc k v) (skipWs rest5)
            | '\x7d' :: rest5 => some (Json.obj (pyDictInsert acc k v), rest5)
            | _ => none
        | _ => none
      else none

/-- Element loop of a JSON array, entered on the first element (the
empty array handled by the caller). -/
def parseArrItems : Nat → List Json → List Char → Option (Json × List Char)
  | 0, _, _ => none
  | fuel + 1, acc, s =>
    match parseVal fuel s with
    | none => none
    | some (v, rest) =>
      match skipWs rest with
      | ',' :: rest2 => parseArrItems fuel (acc ++ [v]) rest2
      | ']' :: rest2 => some (Json.arr (acc ++ [v]), rest2)
      | _ => none

end

/-- Top-level entry of json.loads and json.load: parse one value and
require that only whitespace remains. The fuel of one unit per input
character plus one is enough for every value the serializer below can
produce. NaN and Infinity literals and float syntax, which Python
would accept, are outside this integer-valued embedding and map to a
decode error. -/
def pyJsonLoads (s : String) : Except PyErr Json :=
  match parseVal (s.toList.length + 1) s.toList with
  | some (v, rest) => if (skipWs rest).isEmpty then Except.ok v else Except.error PyErr.jsonDecode
  | none => Except.error PyErr.jsonDecode

/-- Newline plus indentation emitted by json.dump for a given nesting
level when an indent width is configured; nothing in compact mode. -/
def nlIndent (indent : Option Nat) (lvl : Nat) : List Char :=
  match indent with
  | none => []
  | some w => '\n' :: List.replicate (w * lvl) ' '

/-- Separator written between aggregate items by json.dump: comma plus
space in compact mode, comma plus newline indentation in indented
mode, exactly the default separators of the json module. -/
def itemSep (indent : Option Nat) (lvl : Nat) : List Char :=
  match indent with
  | none => [',', ' ']
  | some w => ',' :: nlIndent (some w) lvl

mutual

/-- Serializer of the json module (json.dumps / json.dump) for the
embedded value type, covering both the compact default separators and
the indented form selected by an indent argument; the key separator is
a colon plus space in both modes. -/
def dumpsL (indent : Option Nat) (lvl : Nat) : Json → List Char
  | Json.null => ['n', 'u', 'l', 'l']
  | Json.bool true => ['t', 'r', 'u', 'e']
  | Json.bool false => ['f', 'a', 'l', 's', 'e']
  | Json.num n => intToChars n
  | Json.str s => encodeString s
  | Json.arr [] => ['[', ']']
  | Json.arr (v :: vs) =>
    '[' :: nlIndent indent (lvl + 1) ++ dumpsL indent (lvl + 1) v ++
      dumpsArrTail indent (lvl + 1) vs ++ nlIndent indent lvl ++ [']']
  | Json.obj [] => ['\x7b', '\x7d']
  | Json.obj (kv :: kvs) =>
    '\x7b' :: nlIndent indent (lvl + 1) ++ encodeString kv.1 ++ [':', ' '] ++
      dumpsL indent (lvl + 1) kv.2 ++ dumpsObjTail indent (lvl + 1) kvs ++
      nlIndent indent lvl ++ ['\x7d']

/-- Serialization of the remaining array elements, each preceded by
the item separator. -/
def dumpsArrTail (indent : Option Nat) (lvl : Nat) : List Json → List Char
  | [] => []
  | v :: vs => itemSep indent lvl ++ dumpsL indent lvl v ++ dumpsArrTail indent lvl vs

/-- Serialization of the remaining object members, each preceded by
the item separator. -/
def dumpsObjTail (indent : Option Nat) (lvl : Nat) : List (String × Json) → List Char
  | [] => []
  | kv :: kvs =>
    itemSep indent lvl ++ encodeString kv.1 ++ [':', ' '] ++ dumpsL indent lvl kv.2 ++
      dumpsObjTail indent lvl kvs

end

/-- String form of json.dumps with the given indent argument. -/
def pyJsonDumps (indent : Option Nat) (v : Json) : String :=
  (dumpsL indent 0 v).asString

/-- Lookup in an insertion-ordered association list, the access
discipline of Python dictionaries (keys are unique, the first match
is the binding). -/
def alookup {α : Type} (d : List (String × α)) (k : String) : Option α :=
  match d with
  | [] => none
  | (k0, v) :: rest => if k0 = k then some v else alookup rest k

/-- Update or append in an association list, the write discipline of
both the Python dictionary (for bundle fields) and the filesystem
model below (for file contents): an existing binding keeps its
position, a new one is appended. -/
def aset {α : Type} (d : List (String × α)) (k : String) (v : α) : List (String × α) :=
  match d with
  | [] => [(k, v)]
  | (k0, v0) :: rest => if k0 = k then (k0, v) :: rest else (k0, v0) :: aset rest k v

/-- Decimal string of a natural number, the Python str function on a
non-negative int such as a len result. -/
def natStr (n : Nat) : String := (natToDigits n).asString

/-- Repr of a Python string as used inside the str rendering of lists
and dictionaries: quoted with a single quote (switching to a double
quote when the text contains a single quote and no double quote), with
backslash escapes for the quote, the backslash, newline, carriage
return, tab and other ASCII control characters. Repr of non-printable
characters beyond ASCII is approximated at the ASCII level; no claim
below depends on those cases. -/
def pyReprStr (s : String) : String :=
  let hasSingle := s.toList.contains '\x27'
  let hasDouble := s.toList.contains '\"'
  let q : Char := if hasSingle && !hasDouble then '\"' else '\x27'
  let esc := s.toList.flatMap (fun c =>
    if c = '\\' then ['\\', '\\']
    else if c = q then ['\\', q]
    else if c = '\n' then ['\\', 'n']
    else if c = '\r' then ['\\', 'r']
    else if c = '\t' then ['\\', 't']
    else if c.toNat < 32 || c.toNat = 127 then
      ['\\', 'x', hexDigitChar (c.toNat / 16), hexDigitChar (c.toNat % 16)]
    else [c])
  (q :: esc ++ [q]).asString

mutual

/-- Repr of a value obtained from parsed JSON, as Python repr renders
None, booleans, ints, strings, lists and dictionaries. -/
def pyReprJson : Json → String
  | Json.null => "None"
  | Json.bool true => "True"
  | Json.bool false => "False"
  | Json.num n => (intToChars n).asString
  | Json.str s => pyReprStr s
  | Json.arr [] => "[]"
  | Json.arr (v :: vs) => "[" ++ pyReprJson v ++ pyReprArrTail vs ++ "]"
  | Json.obj [] => "\x7b\x7d"
  | Json.obj (kv :: kvs) =>
    "\x7b" ++ pyReprStr kv.1 ++ ": " ++ pyReprJson kv.2 ++ pyReprObjTail kvs ++ "\x7d"

/-- Comma-separated tail of a list repr. -/
def pyReprArrTail : List Json → String
  | [] => ""
  | v :: vs => ", " ++ pyReprJson v ++ pyReprArrTail vs

/-- Comma-separated tail of a dictionary repr. -/
def pyReprObjTail : List (String × Json) → String
  | [] => ""
  | kv :: kvs => ", " ++ pyReprStr kv.1 ++ ": " ++ pyReprJson kv.2 ++ pyReprObjTail kvs

end

/-- The Python str function on a value obtained from parsed JSON, the
conversion an f-string interpolation applies: a string interpolates as
itself, every other value as its repr. -/
def pyStr (v : Json) : String :=
  match v with
  | Json.str s => s
  | other => pyReprJson other

/-- The sequence behind len and iteration for a value obtained from
parsed JSON: a list yields its elements, a string its one-character
substrings, a dictionary its keys; None, booleans and numbers have no
length and are not iterable. -/
def pySized (v : Json) : Option (List Json) :=
  match v with
  | Json.arr l => some l
  | Json.str s => some (s.toList.map (fun c => Json.str c.toString))
  | Json.obj kvs => some (kvs.map (fun kv => Json.str kv.1))
  | _ => none

/-- The Python len function; raises TypeError on values without a
length, exactly the values pySized rejects. -/
def pyLen (v : Json) : Except PyErr Nat :=
  match pySized v with
  | some l => Except.ok l.length
  | none => Except.error PyErr.typeError

/-- Iteration over a value, raising TypeError on non-iterable values. -/
def pyIter (v : Json) : Except PyErr (List Json) :=
  match pySized v with
  | some l => Except.ok l
  | none => Except.error PyErr.typeError

/-- The dict.get method with a default value. -/
def jgetD (d : List (String × Json)) (k : String) (dflt : Json) : Json :=
  (alookup d k).getD dflt

/-- Interpolation of dict.get with a string default: the stored value
goes through str, a missing key yields the default text itself. -/
def getText (d : List (String × Json)) (k : String) (dflt : String) : String :=
  match alookup d k with
  | some v => pyStr v
  | none => dflt

/-- Part of a path after its last slash, the os.path.basename
function on slash-separated paths. -/
def basenameL (s : List Char) : List Char :=
  s.foldl (fun acc c => if c = '/' then [] else acc ++ [c]) []

/-- String form of os.path.basename. -/
def pyBasename (p : String) : String := (basenameL p.toList).asString

/-- Left-to-right non-overlapping replacement of every occurrence of a
pattern, the Python str.replace method for a non-empty pattern; the
fuel of one unit per input character always suffices. -/
def replaceAllAux (fuel : Nat) (pat repl s : List Char) : List Char :=
  match fuel with
  | 0 => s
  | fuel + 1 =>
    match s with
    | [] => []
    | c :: rest =>
      if pat.isPrefixOf (c :: rest) then repl ++ replaceAllAux fuel pat repl ((c :: rest).drop pat.length)
      else c :: replaceAllAux fuel pat repl rest

/-- The Python str.replace method (all occurrences, scanning left to
right without overlap). -/
def pyReplace (s pat repl : String) : String :=
  (replaceAllAux s.toList.length pat.toList repl.toList s.toList).asString

/-- Key under which one discovered AST artifact is stored, exactly as
combine.py computes it: the basename of the path with every occurrence
of the fixed suffix text removed by str.replace. -/
def astKeyOfPath (p : String) : String := pyReplace (pyBasename p) ".ast.json" ""

/-- Line-break test of the Python str.splitlines method (newline,
carriage return, vertical tab, form feed, the three information
separators, next line, and the two unicode line separators). -/
def isLineBreak (c : Char) : Bool :=
  c = '\n' || c = '\r' || c.toNat = 11 || c.toNat = 12 || c.toNat = 28 ||
  c.toNat = 29 || c.toNat = 30 || c.toNat = 133 || c.toNat = 8232 || c.toNat = 8233

/-- Accumulating loop of str.splitlines: a carriage return directly
followed by a newline counts as one break, a trailing break produces
no final empty line. -/
def splitlinesAux (cur : List Char) (s : List Char) : List String :=
  match s with
  | [] => if cur.isEmpty then [] else [cur.reverse.asString]
  | '\r' :: '\n' :: rest => cur.reverse.asString :: splitlinesAux [] rest
  | c :: rest =>
    if isLineBreak c then cur.reverse.asString :: splitlinesAux [] rest
    else splitlinesAux (c :: cur) rest

/-- The Python str.splitlines method (without keepends), used by
combine.py on the files.txt artifact. -/
def pySplitlines (s : String) : List String := splitlinesAux [] s.toList

/-- Filesystem model: text file contents by path in listing order,
plus the set of directories created so far. Reading returns the
decoded text of the file. -/
structure FS where
  files : List (String × String)
  dirs : List String

/-- Reading a text file, raising FileNotFoundError when the path is
absent, as the builtin open does. -/
def fsReadE (fs : FS) (p : String) : Except PyErr String :=
  match alookup fs.files p with
  | some content => Except.ok content
  | none => Except.error (PyErr.fileNotFound p)

/-- Whole-file write (mode w): the previous content of the path is
replaced, a new path is appended to the listing. -/
def fsWrite (fs : FS) (p : String) (content : String) : FS :=
  ⟨aset fs.files p content, fs.dirs⟩

/-- The os.makedirs call with exist_ok=True: records the directory,
idempotently. -/
def makedirs (fs : FS) (d : String) : FS :=
  ⟨fs.files, if fs.dirs.contains d then fs.dirs else fs.dirs ++ [d]⟩

/-- Raw artifact directory of a repository, the out_dir f-string of
combine.py. -/
def rawDir (repo : String) : String := "../outputs/raw/" ++ repo

/-- Combined output directory of a repository, the combined_dir
f-string of combine.py. -/
def combinedDir (repo : String) : String := "../outputs/combined/" ++ repo

/-- Test of one path against the glob pattern star dot ast dot json
inside a directory: the path lies directly in the directory, its
basename ends with the fixed suffix, and hidden names (leading dot)
are excluded as glob does for a pattern with a leading star. -/
def isAstArtifactPath (dir p : String) : Bool :=
  let pre := (dir ++ "/").toList
  let pl := p.toList
  pre.isPrefixOf pl &&
  (let name := pl.drop pre.length
   !(name.contains '/') && !(name.isEmpty) &&
   (match name with
    | '.' :: _ => false
    | _ => true) &&
   (".ast.json".toList.isSuffixOf name))

/-- Result of the glob.glob call of combine.py: all matching paths of
the filesystem, in listing order (the real call returns them in
unspecified directory order; the listing order of the model stands in
for it). -/
def globAstJson (fs : FS) (dir : String) : List String :=
  (fs.files.map Prod.fst).filter (isAstArtifactPath dir)

/-- The AST loading loop of combine.py: for each discovered artifact
path, the key is the basename with the suffix text removed, and the
value is the parsed JSON content; a parse failure propagates out of
the loop as the exception of json.loads, aborting the whole build. -/
def loadAstFilesAux (fs : FS) (acc : List (String × Json)) :
    List String → Except PyErr (List (String × Json))
  | [] => Except.ok acc
  | p :: rest => do
    let content ← fsReadE fs p
    let v ← pyJsonLoads content
    loadAstFilesAux fs (pyDictInsert acc (astKeyOfPath p) v) rest

/-- Paths of the six fixed text artifacts combine.py reads, in the
order the bundle dictionary literal reads them. -/
def sixArtifactPaths (repo : String) : List String :=
  [rawDir repo ++ "/files.txt", rawDir repo ++ "/cflow.txt", rawDir repo ++ "/ctags.txt",
   rawDir repo ++ "/clang-tidy.txt", rawDir repo ++ "/cppcheck.xml",
   rawDir repo ++ "/complexity.txt"]

/-- The bundle dictionary built in memory by combine.py: the files
list from splitlines of files.txt, the five raw tool texts, and the
ast dictionary filled by the discovery loop; any read or parse failure
propagates. -/
def combineBundle (fs : FS) (repo : String) : Except PyErr Json := do
  let out_dir := rawDir repo
  let filesTxt ← fsReadE fs (out_dir ++ "/files.txt")
  let callgraph ← fsReadE fs (out_dir ++ "/cflow.txt")
  let ctags ← fsReadE fs (out_dir ++ "/ctags.txt")
  let clang_tidy ← fsReadE fs (out_dir ++ "/clang-tidy.txt")
  let cppcheck ← fsReadE fs (out_dir ++ "/cppcheck.xml")
  let complexity ← fsReadE fs (out_dir ++ "/complexity.txt")
  let astPairs ← loadAstFilesAux fs [] (globAstJson fs out_dir)
  Except.ok (Json.obj
    [("files", Json.arr ((pySplitlines filesTxt).map Json.str)),
     ("callgraph", Json.str callgraph),
     ("ctags", Json.str ctags),
     ("clang_tidy", Json.str clang_tidy),
     ("cppcheck", Json.str cppcheck),
     ("complexity", Json.str complexity),
     ("ast", Json.obj astPairs)])

/-- Termination of a modelled process: a normal or explicit exit with
a status code, or an uncaught Python exception (which the interpreter
turns into a nonzero exit after a traceback). -/
inductive Term where
  | exited (code : Nat)
  | raised (e : PyErr)
deriving DecidableEq

/-- Observable outcome of one modelled process run: the filesystem
afterwards, the lines printed to standard output, and the
termination. -/
structure RunResult where
  fs : FS
  out : List String
  term : Term

/-- Usage line of combine.py. -/
def combine_usage : String := "Usage: python combine.py <repo_name>"

/-- The main function of combine.py: argument check, output directory
creation, bundle build, and the indented JSON write of the bundle to
its deterministic path. -/
def combine_main (argv : List String) (fs : FS) : RunResult :=
  if argv.length ≠ 2 then
    ⟨fs, [combine_usage], Term.exited 1⟩
  else
    let repo_name := argv.getD 1 ""
    let combined_dir := combinedDir repo_name
    let fs1 := makedirs fs combined_dir
    match combineBundle fs1 repo_name with
    | Except.error e => ⟨fs1, [], Term.raised e⟩
    | Except.ok bundle =>
      let outPath := combined_dir ++ "/bundle.json"
      let fs2 := fsWrite fs1 outPath (pyJsonDumps (some 2) bundle)
      ⟨fs2, ["[INFO] Bundle created at " ++ outPath], Term.exited 0⟩
/-- Literal template segment 0 of the f-string of generate_html_template. -/
def htmlT0 : String :=
  "<!DOCTYPE html>\n<html lang=\"en\">\n<head>\n    <meta charset=\"UTF-8\">\n    <meta name=\"viewport\" content=\"width=device-width, initial-scale=1.0\">\n    <title>Analysis Report: "

/-- Literal template segment 1 of the f-string of generate_html_template. -/
def htmlT1 : String :=
  "</title>\n    <style>\n        /* WHY: Inline CSS for self-contained HTML */\n        body \x7b\n            font-family: \x27Segoe UI\x27, Tahoma, Geneva, Verdana, sans-serif;\n            margin: 0;\n            padding: 0;\n            background-color: #f5f5f5;\n        \x7d\n        \n        .header \x7b\n            background: linear-gradient(135deg, #667eea 0%, #764ba2 100%);\n            color: white;\n            padding: 2rem;\n            box-shadow: 0 2px 4px rgba(0,0,0,0.1);\n        \x7d\n        \n        .header h1 \x7b\n            margin: 0;\n            font-size: 2.5rem;\n        \x7d\n        \n        .header .meta \x7b\n            opacity: 0.9;\n            margin-top: 0.5rem;\n        \x7d\n        \n        .container \x7b\n            max-width: 1400px;\n            margin: 2rem auto;\n            padding: 0 2rem;\n        \x7d\n        \n        .summary \x7b\n            background: white;\n            padding: 2rem;\n            border-radius: 8px;\n            box-shadow: 0 2px 8px rgba(0,0,0,0.1);\n            margin-bottom: 2rem;\n        \x7d\n        \n        .summary .stats \x7b\n            display: grid;\n            grid-template-columns: repeat(auto-fit, minmax(200px, 1fr));\n            gap: 1rem;\n            margin-top: 1rem;\n        \x7d\n        \n        .stat-box \x7b\n            background: #f8f9fa;\n            padding: 1rem;\n            border-radius: 4px;\n            border-left: 4px solid #667eea;\n        \x7d\n        \n        .stat-box .label \x7b\n            font-size: 0.875rem;\n            color: #666;\n            margin-bottom: 0.25rem;\n        \x7d\n        \n        .stat-box .value \x7b\n            font-size: 1.5rem;\n            font-weight: bold;\n            color: #333;\n        \x7d\n        \n        .section \x7b\n            background: white;\n            padding: 2rem;\n            border-radius: 8px;\n            box-shadow: 0 2px 8px rgba(0,0,0,0.1);\n            margin-bottom: 2rem;\n        \x7d\n        \n        .section h2 \x7b\n            margin-top: 0;\n            color: #667eea;\n            border-bottom: 2px solid #667eea;\n            padding-bottom: 0.5rem;\n        \x7d\n        \n        pre \x7b\n            background: #f8f9fa;\n            padding: 1rem;\n            border-radius: 4px;\n            overflow-x: auto;\n            max-height: 500px;\n            overflow-y: auto;\n        \x7d\n        \n        .file-list \x7b\n            display: grid;\n            grid-template-columns: repeat(auto-fill, minmax(300px, 1fr));\n            gap: 0.5rem;\n        \x7d\n        \n        .file-item \x7b\n            padding: 0.5rem;\n            background: #f8f9fa;\n            border-radius: 4px;\n            font-family: \x27Courier New\x27, monospace;\n            font-size: 0.875rem;\n        \x7d\n        \n        .collapsible \x7b\n            cursor: pointer;\n            user-select: none;\n            padding: 0.5rem;\n            background: #667eea;\n            color: white;\n            border: none;\n            border-radius: 4px;\n            width: 100%;\n            text-align: left;\n            font-size: 1rem;\n            margin-bottom: 0.5rem;\n        \x7d\n        \n        .collapsible:hover \x7b\n            background: #5568d3;\n        \x7d\n        \n        .content \x7b\n            display: none;\n            padding: 1rem 0;\n        \x7d\n        \n        .content.active \x7b\n            display: block;\n        \x7d\n    </style>\n</head>\n<body>\n    <div class=\"header\">\n        <h1>📊 Static Analysis Report</h1>\n        <div class=\"meta\">\n            <strong>Repository:</strong> "

/-- Literal template segment 2 of the f-string of generate_html_template. -/
def htmlT2 : String :=
  " | \n            <strong>Generated:</strong> "

/-- Literal template segment 3 of the f-string of generate_html_template. -/
def htmlT3 : String :=
  "\n        </div>\n    </div>\n    \n    <div class=\"container\">\n        <!-- Summary Statistics -->\n        <div class=\"summary\">\n            <h2>Summary</h2>\n            <div class=\"stats\">\n                <div class=\"stat-box\">\n                    <div class=\"label\">Total Files</div>\n                    <div class=\"value\">"

/-- Literal template segment 4 of the f-string of generate_html_template. -/
def htmlT4 : String :=
  "</div>\n                </div>\n                <div class=\"stat-box\">\n                    <div class=\"label\">AST Dumps</div>\n                    <div class=\"value\">"

/-- Literal template segment 5 of the f-string of generate_html_template. -/
def htmlT5 : String :=
  "</div>\n                </div>\n                <div class=\"stat-box\">\n                    <div class=\"label\">Analysis Tools</div>\n                    <div class=\"value\">7</div>\n                </div>\n            </div>\n        </div>\n        \n        <!-- File List -->\n        <div class=\"section\">\n            <button class=\"collapsible\">📁 File List ("

/-- Literal template segment 6 of the f-string of generate_html_template. -/
def htmlT6 : String :=
  " files)</button>\n            <div class=\"content\">\n                <div class=\"file-list\">\n                    "

/-- Literal template segment 7 of the f-string of generate_html_template. -/
def htmlT7 : String :=
  "\n                </div>\n            </div>\n        </div>\n        \n        <!-- Call Graph -->\n        <div class=\"section\">\n            <button class=\"collapsible\">🔗 Call Graph (cflow)</button>\n            <div class=\"content\">\n                <pre>"

/-- Literal template segment 8 of the f-string of generate_html_template. -/
def htmlT8 : String :=
  "</pre>\n            </div>\n        </div>\n        \n        <!-- Symbol Tags -->\n        <div class=\"section\">\n            <button class=\"collapsible\">🏷️ Symbol Tags (ctags)</button>\n            <div class=\"content\">\n                <pre>"

/-- Literal template segment 9 of the f-string of generate_html_template. -/
def htmlT9 : String :=
  "</pre>\n            </div>\n        </div>\n        \n        <!-- Static Analysis Warnings -->\n        <div class=\"section\">\n            <button class=\"collapsible\">⚠️ Static Warnings (clang-tidy)</button>\n            <div class=\"content\">\n                <pre>"

/-- Literal template segment 10 of the f-string of generate_html_template. -/
def htmlT10 : String :=
  "</pre>\n            </div>\n        </div>\n        \n        <!-- Code Quality -->\n        <div class=\"section\">\n            <button class=\"collapsible\">✅ Code Quality (cppcheck)</button>\n            <div class=\"content\">\n                <pre>"

/-- Literal template segment 11 of the f-string of generate_html_template. -/
def htmlT11 : String :=
  "</pre>\n            </div>\n        </div>\n        \n        <!-- Complexity Metrics -->\n        <div class=\"section\">\n            <button class=\"collapsible\">📈 Complexity Metrics (lizard)</button>\n            <div class=\"content\">\n                <pre>"

/-- Literal template segment 12 of the f-string of generate_html_template. -/
def htmlT12 : String :=
  "</pre>\n            </div>\n        </div>\n        \n        <!-- AST Explorer -->\n        <div class=\"section\">\n            <button class=\"collapsible\">🌳 AST Explorer ("

/-- Literal template segment 13 of the f-string of generate_html_template. -/
def htmlT13 : String :=
  " files)</button>\n            <div class=\"content\">\n                <p><em>AST data available for "

/-- Literal template segment 14 of the f-string of generate_html_template. -/
def htmlT14 : String :=
  " C files. View in browser console or download bundle.json for programmatic access.</em></p>\n                <button onclick=\"console.log(astData)\">Log AST to Console</button>\n            </div>\n        </div>\n    </div>\n    \n    <script>\n        // WHY: Store AST data for browser console access\n        const astData = "

/-- Literal template segment 15 of the f-string of generate_html_template. -/
def htmlT15 : String :=
  ";\n        \n        // WHY: Make all sections collapsible for better navigation\n        const collapsibles = document.querySelectorAll(\x27.collapsible\x27);\n        collapsibles.forEach(button => \x7b\n            button.addEventListener(\x27click\x27, function() \x7b\n                this.classList.toggle(\x27active\x27);\n                const content = this.nextElementSibling;\n                content.classList.toggle(\x27active\x27);\n            \x7d);\n        \x7d);\n    </script>\n</body>\n</html>\n"

/-- The generate_html_template function of render_html.py: the
timestamp (datetime.now at the source, passed in here as an explicit
parameter), the two summary counts via len (which raises TypeError on
a value without a length), and the interpolation of the template
f-string with the bundle fields, in source order. Text fields are
interpolated through str without HTML escaping, the file list is the
join of one div per entry, and the ast dictionary is embedded through
json.dumps inside the inline script. -/
def generate_html_template (repo_name : String) (timestamp : String)
    (bundle : List (String × Json)) : Except PyErr String := do
  let file_count ← pyLen (jgetD bundle "files" (Json.arr []))
  let ast_count ← pyLen (jgetD bundle "ast" (Json.obj []))
  let files ← pyIter (jgetD bundle "files" (Json.arr []))
  let fileItems := String.join
    (files.map (fun f => "<div class=\"file-item\">" ++ pyStr f ++ "</div>"))
  Except.ok
    (htmlT0 ++ repo_name ++ htmlT1 ++ repo_name ++ htmlT2 ++ timestamp ++
     htmlT3 ++ natStr file_count ++ htmlT4 ++ natStr ast_count ++
     htmlT5 ++ natStr file_count ++ htmlT6 ++ fileItems ++
     htmlT7 ++ getText bundle "callgraph" "No call graph data" ++
     htmlT8 ++ getText bundle "ctags" "No ctags data" ++
     htmlT9 ++ getText bundle "clang_tidy" "No clang-tidy data" ++
     htmlT10 ++ getText bundle "cppcheck" "No cppcheck data" ++
     htmlT11 ++ getText bundle "complexity" "No complexity data" ++
     htmlT12 ++ natStr ast_count ++ htmlT13 ++ natStr ast_count ++
     htmlT14 ++ pyJsonDumps none (jgetD bundle "ast" (Json.obj [])) ++ htmlT15)

/-- Usage line of render_html.py. -/
def render_usage : String := "Usage: python render_html.py <repo_name>"

/-- The main function of render_html.py: argument check, output
directory creation, bundle load with its two distinct failure
messages and exit status 1, template generation and the report write.
The text of the JSONDecodeError object interpolated into the invalid
JSON message is abstracted as an elided marker; the absolute path of
the second info line (os.path.abspath) is not re-modelled. A loaded
bundle that is not a JSON object would fail at the first attribute
access on dict.get, modelled as a raised AttributeError. -/
def render_html_main (argv : List String) (now : String) (fs : FS) : RunResult :=
  if argv.length ≠ 2 then
    ⟨fs, [render_usage], Term.exited 1⟩
  else
    let repo_name := argv.getD 1 ""
    let bundle_path := "../outputs/combined/" ++ repo_name ++ "/bundle.json"
    let output_dir := "../outputs/final/" ++ repo_name
    let output_path := output_dir ++ "/report.html"
    let fs1 := makedirs fs output_dir
    match alookup fs1.files bundle_path with
    | none =>
      ⟨fs1, ["ERROR: Bundle not found at " ++ bundle_path, "",
             "Run combine.py first:", "  python combine.py " ++ repo_name],
       Term.exited 1⟩
    | some content =>
      match pyJsonLoads content with
      | Except.error _ =>
        ⟨fs1, ["ERROR: Invalid JSON in bundle: <message elided>", "",
               "Bundle may be corrupted. Re-run combine.py:",
               "  python combine.py " ++ repo_name],
         Term.exited 1⟩
      | Except.ok bundle =>
        match bundle with
        | Json.obj fields =>
          match generate_html_template repo_name now fields with
          | Except.error e => ⟨fs1, [], Term.raised e⟩
          | Except.ok html_content =>
            let fs2 := fsWrite fs1 output_path html_content
            ⟨fs2, ["[INFO] HTML report created at " ++ output_path,
                   "[INFO] Open in browser: file://" ++ output_path],
             Term.exited 0⟩
        | _ => ⟨fs1, [], Term.raised PyErr.attributeError⟩

/-- Well-formed embedded JSON values: every object in the tree has
pairwise distinct keys, as every dictionary obtained in Python does. -/
inductive WfJson : Json → Prop where
  | null : WfJson Json.null
  | bool : ∀ b, WfJson (Json.bool b)
  | num : ∀ n, WfJson (Json.num n)
  | str : ∀ s, WfJson (Json.str s)
  | arr : ∀ l, (∀ v ∈ l, WfJson v) → WfJson (Json.arr l)
  | obj : ∀ kvs, (∀ kv ∈ kvs, WfJson kv.2) → (kvs.map Prod.fst).Nodup → WfJson (Json.obj kvs)

mutual

/-- Fuel needed by parseVal to parse the serialized form of a value:
one unit for the value itself plus, for aggregates, one unit per item
frame; the maximum over siblings reflects that sibling frames restart
from the same decremented fuel. -/
def needJ : Json → Nat
  | Json.arr (v :: vs) => 1 + needArrItems (v :: vs)
  | Json.obj (kv :: kvs) => 1 + needObjItems (kv :: kvs)
  | _ => 1

/-- Fuel needed by the array element loop. -/
def needArrItems : List Json → Nat
  | [] => 0
  | v :: vs => 1 + max (needJ v) (needArrItems vs)

/-- Fuel needed by the object member loop. -/
def needObjItems : List (String × Json) → Nat
  | [] => 0
  | kv :: kvs => 1 + max (needJ kv.2) (needObjItems kvs)

end

/-- Test whether a character list starts with a decimal digit; the
serializer never lets a digit follow a serialized value, which keeps
the greedy integer scan of the parser from running past it. -/
def digitStart (l : List Char) : Bool :=
  match l with
  | c :: _ => isDigitC c
  | [] => false

/-- Test for a list of JSON whitespace characters. -/
def allWs (l : List Char) : Bool :=
  l.all (fun c => c = ' ' || c = '\t' || c = '\n' || c = '\r')

/-- Fold of Python dictionary assignments over a pair list, the
effect of the object member loop of the parser on its accumulator. -/
def foldInsert (d : List (String × Json)) (l : List (String × Json)) : List (String × Json) :=
  l.foldl (fun acc kv => pyDictInsert acc kv.1 kv.2) d

/-- Occurrence test for a pattern as a contiguous substring. -/
def containsSub (pat : List Char) : List Char → Bool
  | [] => pat.isEmpty
  | c :: rest => pat.isPrefixOf (c :: rest) || containsSub pat rest

/-- Number of positions at which the pattern occurs (overlapping
positions counted; the patterns used below cannot overlap
themselves). -/
def countSub (pat : List Char) : List Char → Nat
  | [] => 0
  | c :: rest => (if pat.isPrefixOf (c :: rest) then 1 else 0) + countSub pat rest

/-- Characters before the first occurrence of the pattern (the whole
list when the pattern does not occur). -/
def takeUntilSub (pat : List Char) : List Char → List Char
  | [] => []
  | c :: rest => if pat.isPrefixOf (c :: rest) then [] else c :: takeUntilSub pat rest

/-- Opening markup of one file entry in the rendered file list. -/
def itemMarkerL : List Char := "<div class=\"file-item\">".toList

/-- Closing markup of one file entry. -/
def closeDivL : List Char := "</div>".toList

/-- Scan of a rendered document for file-list entries: at each
occurrence of the item marker, the text up to the following closing
markup is collected. The fuel of one unit per character always
suffices. -/
def extractItemsF (fuel : Nat) (s : List Char) : List String :=
  match fuel with
  | 0 => []
  | fuel + 1 =>
    match s with
    | [] => []
    | _ :: rest =>
      if itemMarkerL.isPrefixOf s then
        (takeUntilSub closeDivL (s.drop itemMarkerL.length)).asString ::
          extractItemsF fuel (s.drop itemMarkerL.length)
      else extractItemsF fuel rest

/-- File names listed by a rendered document, in rendering order. -/
def extractFileItems (html : String) : List String :=
  extractItemsF html.toList.length html.toList

/-- Decidable cleanliness of a fixed text chunk with respect to the
item marker: no nonempty suffix of the chunk is a prefix of the
marker, nor starts with the whole marker; such a chunk can neither
contain an item marker nor begin one that continues into the
following text. -/
def chunkClean (chunk : List Char) : Bool :=
  chunk.tails.all (fun t =>
    t.isEmpty || (!(t.isPrefixOf itemMarkerL) && !(itemMarkerL.isPrefixOf t)))

/-- Modelled from the spec: the key derivation it describes, the
basename with only the one trailing occurrence of the fixed suffix
stripped. This is the comparison point for the claim about key
derivation; the source computes the key differently, with str.replace
over all occurrences. -/
def stripAstSuffixSpec (name : String) : String :=
  if ".ast.json".toList.isSuffixOf name.toList then
    ((name.toList).take (name.toList.length - ".ast.json".length)).asString
  else name

/-- Fixture: a bundle whose callgraph text contains markup
characters. -/
def c1Bundle : List (String × Json) := [("callgraph", Json.str "<b>&")]

/-- Fixture: a raw artifact directory for repository demo in which
every fixed text artifact is present and one of two discovered AST
artifacts contains invalid JSON. -/
def c2FS : FS :=
  ⟨[("../outputs/raw/demo/files.txt", "good.c\nbad.c\n"),
    ("../outputs/raw/demo/cflow.txt", "main"),
    ("../outputs/raw/demo/ctags.txt", ""),
    ("../outputs/raw/demo/clang-tidy.txt", ""),
    ("../outputs/raw/demo/cppcheck.xml", ""),
    ("../outputs/raw/demo/complexity.txt", ""),
    ("../outputs/raw/demo/good.c.ast.json", "\x7b\"type\": \"TranslationUnit\"\x7d"),
    ("../outputs/raw/demo/bad.c.ast.json", "\x7b\"type\": ")], []⟩

/-- Fixture: a bundle whose ast dictionary holds a string value that
closes a script tag. -/
def c3Bundle : List (String × Json) :=
  [("ast", Json.obj [("a.c", Json.str "</script>")])]

/-- Fixture: the end-to-end artifact set of the spec, a complete raw
directory for repository demo with one AST artifact. -/
def c4FS : FS :=
  ⟨[("../outputs/raw/demo/files.txt", "a.c\nb.c"),
    ("../outputs/raw/demo/cflow.txt", "a->b"),
    ("../outputs/raw/demo/ctags.txt", "tags"),
    ("../outputs/raw/demo/clang-tidy.txt", "tidy"),
    ("../outputs/raw/demo/cppcheck.xml", "<xml/>"),
    ("../outputs/raw/demo/complexity.txt", "cx"),
    ("../outputs/raw/demo/a.c.ast.json", "\x7b\"type\": \"TranslationUnit\"\x7d")], []⟩

/-- Fixture: a raw artifact directory for repository demo in which
cflow.txt is missing and files.txt is present. -/
def c6FS : FS :=
  ⟨[("../outputs/raw/demo/files.txt", "a.c"),
    ("../outputs/raw/demo/ctags.txt", ""),
    ("../outputs/raw/demo/clang-tidy.txt", ""),
    ("../outputs/raw/demo/cppcheck.xml", ""),
    ("../outputs/raw/demo/complexity.txt", ""),
    ("../outputs/combined/demo/bundle.json", "\x7b\x7d")], []⟩

/-- Fixture: a filesystem without any bundle for repository demo. -/
def c7FSMissing : FS := ⟨[("unrelated.txt", "x")], []⟩

/-- Fixture: a filesystem whose bundle for repository demo is not
valid JSON. -/
def c7FSBad : FS :=
  ⟨[("../outputs/combined/demo/bundle.json", "not json")], []⟩

/-- Fixture: a complete raw artifact directory for repository demo
used to witness rendering order. -/
def c8FS : FS :=
  ⟨[("../outputs/raw/demo/files.txt", "b.c\na.c\nz.c"),
    ("../outputs/raw/demo/cflow.txt", "flow"),
    ("../outputs/raw/demo/ctags.txt", "tags"),
    ("../outputs/raw/demo/clang-tidy.txt", "tidy"),
    ("../outputs/raw/demo/cppcheck.xml", "xml"),
    ("../outputs/raw/demo/complexity.txt", "cx")], []⟩

/-- Fixture: a bundle whose files value is a number, on which len
raises TypeError. -/
def c10Bundle : List (String × Json) := [("files", Json.num 5)]

/-- No nonempty suffix of x starts an occurrence of the pattern that
continues into y: together with absence from y itself this rules out
every occurrence of the pattern in the concatenation. -/
def noStartP (pat x y : List Char) : Prop :=
  ∀ t, t <:+ x → t ≠ [] → pat.isPrefixOf (t ++ y) = false

/-- Decidable check behind noStartP for a concrete chunk: no nonempty
suffix of the chunk, extended with the relevant lookahead of the
following text, starts with the pattern. -/
def cleanForB (pat chunk ytake : List Char) : Bool :=
  chunk.tails.all (fun t => t.isEmpty || !(pat.isPrefixOf (t ++ ytake)))

/-- Decidable check that no occurrence of the pattern crosses the
boundary from the chunk into the following text (occurrences fully
inside the chunk are allowed; used to split occurrence counts). -/
def crossCleanB (pat chunk ytake : List Char) : Bool :=
  chunk.tails.all (fun t =>
    t.isEmpty || pat.length ≤ t.length || !(pat.isPrefixOf (t ++ ytake)))

/-- Fixture: the bundle value the builder produces from the c4FS
artifact set. -/
def c4ExpectedBundle : Json :=
  Json.obj
    [("files", Json.arr [Json.str "a.c", Json.str "b.c"]),
     ("callgraph", Json.str "a->b"),
     ("ctags", Json.str "tags"),
     ("clang_tidy", Json.str "tidy"),
     ("cppcheck", Json.str "<xml/>"),
     ("complexity", Json.str "cx"),
     ("ast", Json.obj [("a.c", Json.obj [("type", Json.str "TranslationUnit")])])]

/-- Template segment 7 without its trailing pre-open tag, a split
point for locating the raw callgraph text in the document. -/
def htmlT7a : String := (htmlT7.toList.take (htmlT7.toList.length - 5)).asString

/-- Template segment 8 without its leading pre-close tag. -/
def htmlT8a : String := (htmlT8.toList.drop 6).asString

/-- No suffix of the text starts with the item marker, so a scan of
the text finds no further file entry. -/
def noPrefAll (s : List Char) : Prop :=
  ∀ t, t <:+ s → itemMarkerL.isPrefixOf t = false

/-- Boundary cleanliness along a chunk decomposition: no occurrence
of the pattern crosses from one chunk into the following text. -/
def chainCrossClean (pat : List Char) : List (List Char) → Bool
  | [] => true
  | x :: rest => crossCleanB pat x ((rest.flatten).take pat.length) && chainCrossClean pat rest

/-- Chunk decomposition of the document rendered from c1Bundle, with
the oversized style segment split in two and the region around the
embedded callgraph text regrouped so that the raw pre block is one
chunk. -/
def c1Chunks : List (List Char) :=
  [htmlT0.toList, "demo".toList, htmlT1.toList.take 1700, htmlT1.toList.drop 1700,
   "demo".toList, htmlT2.toList, "TS".toList, htmlT3.toList, "0".toList, htmlT4.toList,
   "0".toList, htmlT5.toList, "0".toList, htmlT6.toList, "".toList, htmlT7a.toList,
   "<pre><b>&</pre>".toList, htmlT8a.toList, "No ctags data".toList, htmlT9.toList,
   "No clang-tidy data".toList, htmlT10.toList, "No cppcheck data".toList, htmlT11.toList,
   "No complexity data".toList, htmlT12.toList, "0".toList, htmlT13.toList, "0".toList,
   htmlT14.toList, "\x7b\x7d".toList, htmlT15.toList]

/-- Chunk decomposition of the document rendered from c3Bundle. -/
def c3Chunks : List (List Char) :=
  [htmlT0.toList, "demo".toList, htmlT1.toList.take 1700, htmlT1.toList.drop 1700,
   "demo".toList, htmlT2.toList, "TS".toList, htmlT3.toList, "0".toList, htmlT4.toList,
   "1".toList, htmlT5.toList, "0".toList, htmlT6.toList, "".toList, htmlT7.toList,
   "No call graph data".toList, htmlT8.toList, "No ctags data".toList, htmlT9.toList,
   "No clang-tidy data".toList, htmlT10.toList, "No cppcheck data".toList, htmlT11.toList,
   "No complexity data".toList, htmlT12.toList, "1".toList, htmlT13.toList, "1".toList,
   htmlT14.toList, "\x7b\"a.c\": \"</script>\"\x7d".toList, htmlT15.toList]

/-! Basic facts about strings, prefixes and suffixes. -/

theorem asString_toList (s : String) : s.toList.asString = s := rfl

theorem toList_append (a b : String) : (a ++ b).toList = a.toList ++ b.toList := by
  simp [String.toList]

theorem isPrefixOf_eq_take (pat s : List Char) :
    pat.isPrefixOf s = pat.isPrefixOf (s.take pat.length) := by
  induction pat generalizing s with
  | nil => simp [List.isPrefixOf]
  | cons p ps ih =>
    cases s with
    | nil => simp [List.isPrefixOf]
    | cons c cs => simp [List.isPrefixOf, ih cs]

theorem isPrefixOf_append_of_le (pat t y : List Char) (h : pat.length ≤ t.length) :
    pat.isPrefixOf (t ++ y) = pat.isPrefixOf t := by
  rw [isPrefixOf_eq_take, List.take_append_of_le_length h, ← isPrefixOf_eq_take]

theorem isPrefixOf_append_split {pat t y : List Char}
    (h : pat.isPrefixOf (t ++ y) = true) :
    t.isPrefixOf pat = true ∨ pat.isPrefixOf t = true := by
  induction t generalizing pat with
  | nil => left; simp [List.isPrefixOf]
  | cons c cs ih =>
    cases pat with
    | nil => right; simp [List.isPrefixOf]
    | cons p ps =>
      simp only [List.cons_append, List.isPrefixOf, Bool.and_eq_true, beq_iff_eq] at h ⊢
      obtain ⟨hc, hrest⟩ := h
      subst hc
      rcases ih hrest with h1 | h1
      · exact Or.inl ⟨rfl, h1⟩
      · exact Or.inr ⟨rfl, h1⟩

theorem suffix_append_cases {t a b : List Char} (h : t <:+ a ++ b) :
    t <:+ b ∨ ∃ ta, ta <:+ a ∧ ta ≠ [] ∧ t = ta ++ b := by
  induction a with
  | nil => left; simpa using h
  | cons c a' ih =>
    rw [List.cons_append, List.suffix_cons_iff] at h
    rcases h with h | h
    · right
      exact ⟨c :: a', List.suffix_refl _, by simp, by simpa using h⟩
    · rcases ih h with h1 | ⟨ta, hta, hne, heq⟩
      · left; exact h1
      · right
        exact ⟨ta, hta.trans (List.suffix_cons c a'), hne, heq⟩

/-! Occurrence calculus: locating and excluding pattern occurrences in
concatenations chunk by chunk, so that no statement ever requires a
single deep scan of a whole rendered document. -/

theorem isPrefixOf_append_take (pat t y : List Char) :
    pat.isPrefixOf (t ++ y) = pat.isPrefixOf (t ++ y.take pat.length) := by
  rw [isPrefixOf_eq_take, List.take_append_eq_append_take,
      isPrefixOf_eq_take pat (t ++ y.take pat.length), List.take_append_eq_append_take,
      List.take_take]
  congr 3
  omega

theorem length_le_of_isPrefixOf {pat t : List Char} (h : pat.isPrefixOf t = true) :
    pat.length ≤ t.length :=
  (List.isPrefixOf_iff_prefix.mp h).length_le

theorem noStartP_of_cleanForB {pat x y : List Char}
    (h : cleanForB pat x (y.take pat.length) = true) : noStartP pat x y := by
  intro t ht hne
  have hmem : t ∈ x.tails := (List.mem_tails _ _).mpr ht
  have := List.all_eq_true.mp h t hmem
  rw [isPrefixOf_append_take]
  rcases Bool.or_eq_true _ _ |>.mp this with h1 | h1
  · exact absurd (List.isEmpty_iff.mp h1) hne
  · simpa using h1

theorem noStartP_of_not_mem {p : Char} {ps x y : List Char}
    (h : ∀ c ∈ x, c ≠ p) : noStartP (p :: ps) x y := by
  intro t ht hne
  cases t with
  | nil => exact absurd rfl hne
  | cons c t' =>
    have hc : c ∈ x := ht.subset (List.mem_cons_self c t')
    simp only [List.cons_append, List.isPrefixOf, Bool.and_eq_false_iff, beq_eq_false_iff_ne]
    exact Or.inl (fun hpc => h c hc hpc.symm)

theorem noStartP_append {pat a b y : List Char}
    (ha : noStartP pat a (b ++ y)) (hb : noStartP pat b y) : noStartP pat (a ++ b) y := by
  intro t ht hne
  rcases suffix_append_cases ht with h1 | ⟨ta, hta, htane, rfl⟩
  · exact hb t h1 hne
  · rw [List.append_assoc]
    exact ha ta hta htane

theorem noStartP_nil (pat y : List Char) : noStartP pat [] y := by
  intro t ht hne
  simp at ht
  exact absurd ht hne

theorem containsSub_eq_false_append {pat x y : List Char}
    (hx : noStartP pat x y) (hy : containsSub pat y = false) :
    containsSub pat (x ++ y) = false := by
  induction x with
  | nil => simpa using hy
  | cons c x' ih =>
    simp only [List.cons_append, containsSub, Bool.or_eq_false_iff]
    constructor
    · exact hx (c :: x') (List.suffix_refl _) (by simp)
    · exact ih (fun t ht hne => hx t (ht.trans (List.suffix_cons c x')) hne)

theorem containsSub_nil_eq_false {pat : List Char} (h : pat ≠ []) :
    containsSub pat [] = false := by
  cases pat with
  | nil => exact absurd rfl h
  | cons p ps => simp [containsSub]

theorem containsSub_append_right {pat x y : List Char}
    (hy : containsSub pat y = true) : containsSub pat (x ++ y) = true := by
  induction x with
  | nil => simpa using hy
  | cons c x' ih => simp [containsSub, ih]

theorem isPrefixOf_self_append (pat y : List Char) :
    pat.isPrefixOf (pat ++ y) = true := by
  induction pat with
  | nil => simp [List.isPrefixOf]
  | cons p ps ih => simp [List.isPrefixOf, ih]

theorem containsSub_self_append {p : Char} {ps y : List Char} :
    containsSub (p :: ps) ((p :: ps) ++ y) = true := by
  simp [containsSub, isPrefixOf_self_append]

theorem countSub_append {pat x y : List Char}
    (h : ∀ t, t <:+ x → t ≠ [] → t.length < pat.length → pat.isPrefixOf (t ++ y) = false) :
    countSub pat (x ++ y) = countSub pat x + countSub pat y := by
  induction x with
  | nil => simp [countSub]
  | cons c x' ih =>
    simp only [List.cons_append, countSub, List.append_eq]
    rw [ih (fun t ht hne hlt => h t (ht.trans (List.suffix_cons c x')) hne hlt)]
    rcases Nat.lt_or_ge (c :: x').length pat.length with hlen | hlen
    · have hx : pat.isPrefixOf (c :: (x' ++ y)) = false := by
        rw [← List.cons_append]
        exact h (c :: x') (List.suffix_refl _) (by simp) hlen
      have hx2 : pat.isPrefixOf (c :: x') = false := by
        cases hp : pat.isPrefixOf (c :: x') with
        | false => rfl
        | true => exact absurd (length_le_of_isPrefixOf hp) (by omega)
      simp [hx, hx2]
    · have hx : pat.isPrefixOf (c :: (x' ++ y)) = pat.isPrefixOf (c :: x') := by
        rw [← List.cons_append]
        exact isPrefixOf_append_of_le pat (c :: x') y hlen
      simp only [hx]
      cases pat.isPrefixOf (c :: x') <;> simp_arith

theorem crossCleanB_spec {pat x y : List Char}
    (h : crossCleanB pat x (y.take pat.length) = true) :
    ∀ t, t <:+ x → t ≠ [] → t.length < pat.length → pat.isPrefixOf (t ++ y) = false := by
  intro t ht hne hlt
  have hmem : t ∈ x.tails := (List.mem_tails _ _).mpr ht
  have := List.all_eq_true.mp h t hmem
  rw [isPrefixOf_append_take]
  rcases Bool.or_eq_true _ _ |>.mp this with h1 | h1
  · rcases Bool.or_eq_true _ _ |>.mp h1 with h2 | h2
    · exact absurd (List.isEmpty_iff.mp h2) hne
    · exact absurd (of_decide_eq_true h2) (by omega)
  · simpa using h1

/-! Decimal digits: the Python str rendering of integers and its
interplay with the greedy digit scan of the json parser. -/

theorem digitChar_isDigit : ∀ d, d < 10 → isDigitC (digitChar d) = true := by decide

theorem digitVal_digitChar : ∀ d, d < 10 → digitVal (digitChar d) = d := by decide

theorem natToDigitsAux_append (fuel : Nat) :
    ∀ n acc, natToDigitsAux fuel n acc = natToDigitsAux fuel n [] ++ acc := by
  induction fuel with
  | zero => intro n acc; simp [natToDigitsAux]
  | succ fuel ih =>
    intro n acc
    by_cases h : n < 10
    · simp [natToDigitsAux, h]
    · simp only [natToDigitsAux, if_neg h]
      rw [ih (n / 10) (digitChar (n % 10) :: acc), ih (n / 10) [digitChar (n % 10)]]
      simp

theorem digitsVal_stop {rest : List Char} (a : Nat) (h : digitStart rest = false) :
    digitsVal rest a = (a, rest) := by
  cases rest with
  | nil => simp [digitsVal]
  | cons c r =>
    simp only [digitStart] at h
    simp [digitsVal, h]

theorem digitsVal_natToDigitsAux (fuel : Nat) :
    ∀ n a rest, n < 10 ^ (fuel + 1) →
      digitsVal (natToDigitsAux (fuel + 1) n [] ++ rest) a = digitsVal rest (a * tenPow n + n) := by
  induction fuel with
  | zero =>
    intro n a rest hn
    have hn : n < 10 := by simpa using hn
    simp [natToDigitsAux, hn, digitsVal, digitChar_isDigit n hn, digitVal_digitChar n hn,
          tenPow, Nat.mul_comm]
  | succ fuel ih =>
    intro n a rest hn
    by_cases h : n < 10
    · simp [natToDigitsAux, h, digitsVal, digitChar_isDigit n h, digitVal_digitChar n h,
            tenPow, Nat.mul_comm]
    · have hd : n / 10 < 10 ^ (fuel + 1) := by
        rw [Nat.div_lt_iff_lt_mul (by omega)]
        calc n < 10 ^ (fuel + 1 + 1) := hn
        _ = 10 ^ (fuel + 1) * 10 := by ring
      have hm : n % 10 < 10 := Nat.mod_lt _ (by omega)
      conv =>
        lhs
        rw [show natToDigitsAux (fuel + 1 + 1) n [] =
              natToDigitsAux (fuel + 1) (n / 10) [digitChar (n % 10)] by
            simp [natToDigitsAux, h]]
      rw [natToDigitsAux_append (fuel + 1) (n / 10) [digitChar (n % 10)]]
      rw [List.append_assoc, List.singleton_append]
      rw [ih (n / 10) a (digitChar (n % 10) :: rest) hd]
      simp only [digitsVal, digitChar_isDigit _ hm, digitVal_digitChar _ hm, if_pos]
      have htp : tenPow n = 10 * tenPow (n / 10) := by
        rw [tenPow]
        simp [h]
      rw [htp]
      congr 1
      have := Nat.div_add_mod n 10
      ring_nf
      omega

theorem digitsVal_natToDigits {n : Nat} {rest : List Char} (h : digitStart rest = false) :
    digitsVal (natToDigits n ++ rest) 0 = (n, rest) := by
  have hn : n < 10 ^ (n + 1) := by
    calc n < 10 ^ n := Nat.lt_pow_self (by omega) n
    _ ≤ 10 ^ (n + 1) := Nat.pow_le_pow_right (by omega) (by omega)
  rw [show natToDigits n = natToDigitsAux (n + 1) n [] from rfl]
  cases n with
  | zero => simpa [natToDigitsAux, digitsVal, digitChar, isDigitC, digitVal] using digitsVal_stop _ h
  | succ m =>
    rw [digitsVal_natToDigitsAux (m + 1) (m + 1) 0 rest hn]
    simpa using digitsVal_stop _ h

theorem natToDigits_all_digits :
    ∀ fuel n acc, (∀ c ∈ acc, isDigitC c = true) →
      ∀ c ∈ natToDigitsAux fuel n acc, isDigitC c = true := by
  intro fuel
  induction fuel with
  | zero => intro n acc hacc; simpa [natToDigitsAux] using hacc
  | succ fuel ih =>
    intro n acc hacc c hc
    by_cases h : n < 10
    · simp only [natToDigitsAux, if_pos h] at hc
      rcases List.mem_cons.mp hc with rfl | hc
      · exact digitChar_isDigit n h
      · exact hacc c hc
    · simp only [natToDigitsAux, if_neg h] at hc
      refine ih (n / 10) (digitChar (n % 10) :: acc) ?_ c hc
      intro d hd
      rcases List.mem_cons.mp hd with rfl | hd
      · exact digitChar_isDigit _ (Nat.mod_lt _ (by omega))
      · exact hacc d hd

theorem natToDigitsAux_ne_nil : ∀ fuel n acc, natToDigitsAux (fuel + 1) n acc ≠ [] := by
  intro fuel
  induction fuel with
  | zero =>
    intro n acc
    by_cases h : n < 10 <;> simp [natToDigitsAux, h]
  | succ fuel ih =>
    intro n acc
    by_cases h : n < 10
    · simp [natToDigitsAux, h]
    · have heq : natToDigitsAux (fuel + 1 + 1) n acc =
          natToDigitsAux (fuel + 1) (n / 10) (digitChar (n % 10) :: acc) := by
        conv_lhs => rw [natToDigitsAux]
        simp [h]
      rw [heq]
      exact ih (n / 10) (digitChar (n % 10) :: acc)

theorem natToDigits_ne_nil (n : Nat) : natToDigits n ≠ [] :=
  natToDigitsAux_ne_nil n n []

theorem natToDigits_head_digit {n : Nat} {c : Char} {t : List Char}
    (h : natToDigits n = c :: t) : isDigitC c = true :=
  natToDigits_all_digits (n + 1) n [] (by simp) c (by rw [show natToDigits n = natToDigitsAux (n + 1) n [] from rfl] at h; rw [h]; simp)

theorem digit_not_special {c : Char} (h : isDigitC c = true) :
    c ≠ '\x7b' ∧ c ≠ '[' ∧ c ≠ '\"' ∧ c ≠ 't' ∧ c ≠ 'f' ∧ c ≠ 'n' ∧ c ≠ '-' := by
  refine ⟨?_, ?_, ?_, ?_, ?_, ?_, ?_⟩ <;>
    (intro hc; subst hc; exact absurd h (by decide))

theorem parseIntPart_intToChars {n : Int} {rest : List Char} (h : digitStart rest = false) :
    parseIntPart (intToChars n ++ rest) = some (n, rest) := by
  by_cases hn : n < 0
  · cases heq : natToDigits n.natAbs with
    | nil => exact absurd heq (natToDigits_ne_nil _)
    | cons c t =>
      have hcd : isDigitC c = true := natToDigits_head_digit heq
      simp only [intToChars, if_pos hn, heq, List.cons_append, parseIntPart, if_pos rfl,
                 if_pos hcd]
      have : digitsVal (c :: (t ++ rest)) 0 = (n.natAbs, rest) := by
        rw [← List.cons_append, ← heq, digitsVal_natToDigits h]
      rw [this]
      simp only [if_true, Option.some.injEq, Prod.mk.injEq, Int.ofNat_eq_natCast, and_true,
                 true_and, eq_self_iff_true]
      omega
  · cases heq : natToDigits n.toNat with
    | nil => exact absurd heq (natToDigits_ne_nil _)
    | cons c t =>
      have hcd : isDigitC c = true := natToDigits_head_digit heq
      have hnotdash : ¬(c = '-') := (digit_not_special hcd).2.2.2.2.2.2
      simp only [intToChars, if_neg hn, heq, List.cons_append, parseIntPart, if_neg hnotdash,
                 if_pos hcd]
      have : digitsVal (c :: (t ++ rest)) 0 = (n.toNat, rest) := by
        rw [← List.cons_append, ← heq, digitsVal_natToDigits h]
      rw [this]
      simp only [if_true, Option.some.injEq, Prod.mk.injEq, Int.ofNat_eq_natCast, and_true,
                 true_and, eq_self_iff_true]
      omega

/-! Whitespace and separators. -/

theorem skipWs_append_allWs {ws x : List Char} (h : allWs ws = true) :
    skipWs (ws ++ x) = skipWs x := by
  induction ws with
  | nil => simp
  | cons c cs ih =>
    simp only [allWs, List.all_cons, Bool.and_eq_true] at h
    simp only [List.cons_append, skipWs, h.1, if_pos]
    exact ih (by simpa [allWs] using h.2)

theorem skipWs_cons_of_not_ws {c : Char} {rest : List Char}
    (h : (c = ' ' || c = '\t' || c = '\n' || c = '\r') = false) :
    skipWs (c :: rest) = c :: rest := by
  simp [skipWs, h]

theorem allWs_nlIndent (ind : Option Nat) (lvl : Nat) : allWs (nlIndent ind lvl) = true := by
  cases ind with
  | none => simp [nlIndent, allWs]
  | some w =>
    simp only [nlIndent, allWs, List.all_cons, Bool.and_eq_true]
    refine ⟨by decide, ?_⟩
    rw [List.all_eq_true]
    intro c hc
    rw [List.eq_of_mem_replicate hc]
    decide

/-! Hexadecimal escapes. -/

theorem hexVal_hexDigitChar : ∀ d, d < 16 → hexVal (hexDigitChar d) = some d := by decide

theorem readHex4_hex4 {n : Nat} (rest : List Char) (h : n < 65536) :
    readHex4 (hex4 n ++ rest) = some (n, rest) := by
  have h1 : n / 4096 % 16 < 16 := Nat.mod_lt _ (by omega)
  have h2 : n / 256 % 16 < 16 := Nat.mod_lt _ (by omega)
  have h3 : n / 16 % 16 < 16 := Nat.mod_lt _ (by omega)
  have h4 : n % 16 < 16 := Nat.mod_lt _ (by omega)
  simp only [hex4, List.cons_append, List.nil_append, readHex4,
             hexVal_hexDigitChar _ h1, hexVal_hexDigitChar _ h2,
             hexVal_hexDigitChar _ h3, hexVal_hexDigitChar _ h4]
  have heq : 4096 * (n / 4096 % 16) + 256 * (n / 256 % 16) + 16 * (n / 16 % 16) + n % 16 = n := by
    omega
  rw [heq]

/-! JSON string escaping: every escape the serializer emits decodes
back to the character it came from. -/

theorem char_toNat_valid (c : Char) : c.toNat.isValidChar := by
  rcases c.valid with h | ⟨h1, h2⟩
  · left
    have h2 : c.val.toNat < (55296 : UInt32).toNat := h
    simpa using h2
  · right
    have g1 : (57343 : UInt32).toNat < c.val.toNat := h1
    have g2 : c.val.toNat < (1114112 : UInt32).toNat := h2
    exact ⟨by simpa using g1, by simpa using g2⟩

theorem char_toNat_lt (c : Char) : c.toNat < 1114112 := by
  rcases char_toNat_valid c with h | ⟨_, h2⟩
  · omega
  · exact h2

theorem char_toNat_not_surrogate (c : Char) : c.toNat < 55296 ∨ 57343 < c.toNat := by
  rcases char_toNat_valid c with h | ⟨h1, _⟩
  · exact Or.inl h
  · exact Or.inr h1

theorem mkChar?_toNat (c : Char) : mkChar? c.toNat = some c := by
  rw [mkChar?, dif_pos (char_toNat_valid c), Char.ofNat_toNat]

theorem parseUnicodeEscape_hex (rest : List Char) (h : Nat) (hlt : h < 65536)
    (hout : (decide (55296 ≤ h) && decide (h ≤ 56319)) = false)
    (hch : mkChar? h = some (Char.ofNat h)) :
    parseUnicodeEscape (hex4 h ++ rest) = some (Char.ofNat h, rest) := by
  rw [parseUnicodeEscape, readHex4_hex4 rest hlt]
  simp only [hout, Bool.false_eq_true, if_false, hch]

theorem parseUnicodeEscape_surrogates (rest : List Char) (v : Nat) (hv : v < 1048576) :
    parseUnicodeEscape
        (hex4 (55296 + v / 1024) ++ ('\\' :: 'u' :: (hex4 (56320 + v % 1024) ++ rest))) =
      (match mkChar? (65536 + v) with
       | some ch => some (ch, rest)
       | none => none) := by
  have hdiv : v / 1024 < 1024 := by omega
  have hmod : v % 1024 < 1024 := Nat.mod_lt _ (by omega)
  have hhi : 55296 + v / 1024 < 65536 := by omega
  have hlo : 56320 + v % 1024 < 65536 := by omega
  have hin : (decide (55296 ≤ 55296 + v / 1024) && decide (55296 + v / 1024 ≤ 56319)) = true := by
    simp only [Bool.and_eq_true, decide_eq_true_eq]
    omega
  have hlosur : (decide (56320 ≤ 56320 + v % 1024) && decide (56320 + v % 1024 ≤ 57343)) = true := by
    simp only [Bool.and_eq_true, decide_eq_true_eq]
    omega
  have hcomb : 65536 + (55296 + v / 1024 - 55296) * 1024 + (56320 + v % 1024 - 56320) = 65536 + v := by
    have := Nat.div_add_mod v 1024
    omega
  rw [parseUnicodeEscape, readHex4_hex4 _ hhi]
  simp only [hin, if_true]
  rw [readHex4_hex4 rest hlo]
  simp only [hlosur, if_true, hcomb]

theorem parseEscape_u (s : List Char) : parseEscape ('u' :: s) = parseUnicodeEscape s := rfl

theorem parseStringBody_backslash (fuel : Nat) (acc rest : List Char) :
    parseStringBody (fuel + 1) acc ('\\' :: rest) =
      (match parseEscape rest with
       | some p => parseStringBody fuel (p.1 :: acc) p.2
       | none => none) := rfl

theorem parseStringBody_escChar (c : Char) (fuel : Nat) (acc rest : List Char) :
    parseStringBody (fuel + 1) acc (escChar c ++ rest) = parseStringBody fuel (c :: acc) rest := by
  by_cases h1 : c = '\"'
  · subst h1; rfl
  by_cases h2 : c = '\\'
  · subst h2; rfl
  by_cases h3 : c = '\n'
  · subst h3; rfl
  by_cases h4 : c = '\r'
  · subst h4; rfl
  by_cases h5 : c = '\t'
  · subst h5; rfl
  by_cases h6 : c.toNat = 8
  · have hc : c = Char.ofNat 8 := by rw [← h6, Char.ofNat_toNat]
    subst hc
    rfl
  by_cases h7 : c.toNat = 12
  · have hc : c = Char.ofNat 12 := by rw [← h7, Char.ofNat_toNat]
    subst hc
    rfl
  by_cases h8 : (decide (32 ≤ c.toNat) && decide (c.toNat ≤ 126)) = true
  · simp only [escChar, if_neg h1, if_neg h2, if_neg h3, if_neg h4, if_neg h5, if_neg h6,
               if_neg h7, h8, if_true, List.cons_append, List.nil_append]
    rw [parseStringBody]
    have hlt : ¬ c.toNat < 32 := by
      simp only [Bool.and_eq_true, decide_eq_true_eq] at h8
      omega
    simp only [if_neg h1, if_neg h2, if_neg hlt]
  by_cases h9 : c.toNat < 65536
  · have hout : (decide (55296 ≤ c.toNat) && decide (c.toNat ≤ 56319)) = false := by
      rcases char_toNat_not_surrogate c with hs | hs <;>
        simp only [Bool.and_eq_false_iff, decide_eq_false_iff_not] <;> omega
    simp only [escChar, if_neg h1, if_neg h2, if_neg h3, if_neg h4, if_neg h5, if_neg h6,
               if_neg h7, h8, Bool.false_eq_true, if_false, if_pos h9, List.cons_append]
    rw [parseStringBody_backslash, parseEscape_u,
        parseUnicodeEscape_hex rest c.toNat h9 hout (by rw [mkChar?_toNat, Char.ofNat_toNat]),
        Char.ofNat_toNat]
  · have hv : c.toNat - 65536 < 1048576 := by
      have := char_toNat_lt c
      omega
    have hcn : 65536 + (c.toNat - 65536) = c.toNat := by omega
    simp only [escChar, if_neg h1, if_neg h2, if_neg h3, if_neg h4, if_neg h5, if_neg h6,
               if_neg h7, h8, Bool.false_eq_true, if_false, if_neg h9, List.cons_append,
               List.append_assoc, List.nil_append]
    rw [parseStringBody_backslash, parseEscape_u,
        parseUnicodeEscape_surrogates _ (c.toNat - 65536) hv]
    rw [hcn, mkChar?_toNat]

theorem escChar_length_pos (c : Char) : 1 ≤ (escChar c).length := by
  rw [escChar]
  split_ifs <;> simp [hex4]

theorem flatMap_escChar_length (t : List Char) : t.length ≤ (t.flatMap escChar).length := by
  induction t with
  | nil => simp
  | cons c t' ih =>
    simp only [List.flatMap_cons, List.length_cons, List.length_append]
    have := escChar_length_pos c
    omega

theorem parseStringBody_quote (fuel : Nat) (acc rest : List Char) :
    parseStringBody (fuel + 1) acc ('\"' :: rest) = some (acc.reverse.asString, rest) := rfl

theorem parseStringBody_flatMap (t : List Char) :
    ∀ (fuel : Nat) (acc rest : List Char), t.length + 1 ≤ fuel →
      parseStringBody fuel acc ((t.flatMap escChar) ++ '\"' :: rest) =
        some ((acc.reverse ++ t).asString, rest) := by
  induction t with
  | nil =>
    intro fuel acc rest hf
    cases fuel with
    | zero => omega
    | succ f =>
      simp only [List.flatMap_nil, List.nil_append, List.append_nil]
      exact parseStringBody_quote f acc rest
  | cons c t' ih =>
    intro fuel acc rest hf
    cases fuel with
    | zero => omega
    | succ f =>
      simp only [List.flatMap_cons, List.append_assoc]
      rw [parseStringBody_escChar c f acc (t'.flatMap escChar ++ '\"' :: rest)]
      rw [ih f (c :: acc) rest (by simp at hf; omega)]
      simp

theorem parseString_encoded (s : String) (rest : List Char) :
    parseString ((s.toList.flatMap escChar) ++ '\"' :: rest) = some (s, rest) := by
  rw [parseString]
  rw [parseStringBody_flatMap s.toList _ [] rest ?_]
  · simp only [List.reverse_nil, List.nil_append]
    rw [asString_toList]
  · have h1 := flatMap_escChar_length s.toList
    simp only [List.length_append, List.length_cons]
    omega

/-! Heads of serialized values and separators. -/

theorem isDigitC_ne {c d : Char} (h : isDigitC c = true) (hd : isDigitC d = false) : c ≠ d := by
  intro heq
  subst heq
  rw [h] at hd
  exact absurd hd (by decide)

theorem not_ws_of_digit {c : Char} (h : isDigitC c = true) :
    (c = ' ' || c = '\t' || c = '\n' || c = '\r') = false := by
  simp only [Bool.or_eq_false_iff, decide_eq_false_iff_not]
  refine ⟨⟨⟨?_, ?_⟩, ?_⟩, ?_⟩ <;> exact isDigitC_ne h (by decide)

theorem intToChars_head (n : Int) :
    ∃ c t, intToChars n = c :: t ∧ (c = '-' ∨ isDigitC c = true) := by
  by_cases hn : n < 0
  · exact ⟨'-', natToDigits n.natAbs, by simp [intToChars, hn], Or.inl rfl⟩
  · cases heq : natToDigits n.toNat with
    | nil => exact absurd heq (natToDigits_ne_nil _)
    | cons c t =>
      exact ⟨c, t, by simp [intToChars, hn, heq], Or.inr (natToDigits_head_digit heq)⟩

theorem dumpsL_head (ind : Option Nat) (lvl : Nat) (v : Json) :
    ∃ c t, dumpsL ind lvl v = c :: t ∧
      (c = 'n' ∨ c = 't' ∨ c = 'f' ∨ c = '\"' ∨ c = '[' ∨ c = '\x7b' ∨ c = '-' ∨
       isDigitC c = true) := by
  cases v with
  | null => exact ⟨'n', _, rfl, by simp⟩
  | bool b =>
    cases b with
    | true => exact ⟨'t', _, rfl, by simp⟩
    | false => exact ⟨'f', _, rfl, by simp⟩
  | num n =>
    obtain ⟨c, t, hct, hc⟩ := intToChars_head n
    refine ⟨c, t, by simp [dumpsL, hct], ?_⟩
    rcases hc with hc | hc
    · exact Or.inr (Or.inr (Or.inr (Or.inr (Or.inr (Or.inr (Or.inl hc))))))
    · exact Or.inr (Or.inr (Or.inr (Or.inr (Or.inr (Or.inr (Or.inr hc))))))
  | str s => exact ⟨'\"', _, rfl, by simp⟩
  | arr l =>
    cases l with
    | nil => exact ⟨'[', _, rfl, by simp⟩
    | cons a as => exact ⟨'[', _, rfl, by simp⟩
  | obj l =>
    cases l with
    | nil => exact ⟨'\x7b', _, rfl, by simp⟩
    | cons a as => exact ⟨'\x7b', _, rfl, by simp⟩

theorem skipWs_dumpsL (ind : Option Nat) (lvl : Nat) (v : Json) (x : List Char) :
    skipWs (dumpsL ind lvl v ++ x) = dumpsL ind lvl v ++ x := by
  obtain ⟨c, t, hct, hc⟩ := dumpsL_head ind lvl v
  rw [hct, List.cons_append]
  refine skipWs_cons_of_not_ws ?_
  rcases hc with hc | hc | hc | hc | hc | hc | hc | hc
  all_goals first
  | (subst hc; decide)
  | (exact not_ws_of_digit hc)

theorem digitStart_nlIndent_close (ind : Option Nat) (lvl0 : Nat) {c : Char}
    (hc : isDigitC c = false) (rest : List Char) :
    digitStart (nlIndent ind lvl0 ++ c :: rest) = false := by
  cases ind with
  | none => simpa [nlIndent, digitStart] using hc
  | some w => simp [nlIndent, digitStart, isDigitC]

theorem digitStart_arrTail (ind : Option Nat) (lvl lvl0 : Nat) (vs : List Json)
    {c : Char} (hc : isDigitC c = false) (rest : List Char) :
    digitStart (dumpsArrTail ind lvl vs ++ (nlIndent ind lvl0 ++ c :: rest)) = false := by
  cases vs with
  | nil =>
    rw [show dumpsArrTail ind lvl [] = [] from rfl, List.nil_append]
    exact digitStart_nlIndent_close ind lvl0 hc rest
  | cons v vs' =>
    rw [show dumpsArrTail ind lvl (v :: vs') =
          itemSep ind lvl ++ dumpsL ind lvl v ++ dumpsArrTail ind lvl vs' from rfl]
    cases ind <;> simp [itemSep, nlIndent, digitStart, isDigitC]

theorem digitStart_objTail (ind : Option Nat) (lvl lvl0 : Nat) (kvs : List (String × Json))
    {c : Char} (hc : isDigitC c = false) (rest : List Char) :
    digitStart (dumpsObjTail ind lvl kvs ++ (nlIndent ind lvl0 ++ c :: rest)) = false := by
  cases kvs with
  | nil =>
    rw [show dumpsObjTail ind lvl [] = [] from rfl, List.nil_append]
    exact digitStart_nlIndent_close ind lvl0 hc rest
  | cons kv kvs' =>
    rw [show dumpsObjTail ind lvl (kv :: kvs') =
          itemSep ind lvl ++ encodeString kv.1 ++ [':', ' '] ++ dumpsL ind lvl kv.2 ++
            dumpsObjTail ind lvl kvs' from rfl]
    cases ind <;> simp [itemSep, nlIndent, digitStart, isDigitC]

theorem itemSep_shape (ind : Option Nat) (lvl : Nat) :
    ∃ wsTail, itemSep ind lvl = ',' :: wsTail ∧ allWs wsTail = true := by
  cases ind with
  | none => exact ⟨[' '], rfl, by decide⟩
  | some w => exact ⟨nlIndent (some w) lvl, rfl, allWs_nlIndent _ _⟩

/-! Inversion of well-formedness and dictionary folds. -/

theorem wfJson_arr_elem {l : List Json} (h : WfJson (Json.arr l)) : ∀ v ∈ l, WfJson v := by
  cases h
  assumption

theorem wfJson_obj_elem {kvs : List (String × Json)} (h : WfJson (Json.obj kvs)) :
    ∀ kv ∈ kvs, WfJson kv.2 := by
  cases h
  assumption

theorem wfJson_obj_nodup {kvs : List (String × Json)} (h : WfJson (Json.obj kvs)) :
    (kvs.map Prod.fst).Nodup := by
  cases h
  assumption

theorem pyDictInsert_not_mem {acc : List (String × Json)} {k : String} {v : Json}
    (h : k ∉ acc.map Prod.fst) : pyDictInsert acc k v = acc ++ [(k, v)] := by
  induction acc with
  | nil => rfl
  | cons kv acc' ih =>
    simp only [List.map_cons, List.mem_cons, not_or] at h
    simp only [pyDictInsert, if_neg (fun hk : kv.1 = k => h.1 hk.symm)]
    rw [ih h.2]
    simp

theorem foldInsert_eq_append {l : List (String × Json)} :
    ∀ acc : List (String × Json), (((acc ++ l).map Prod.fst).Nodup) →
      foldInsert acc l = acc ++ l := by
  induction l with
  | nil => intro acc _; simp [foldInsert]
  | cons kv l' ih =>
    intro acc h
    have hnm : kv.1 ∉ acc.map Prod.fst := by
      intro hm
      rw [List.map_append, List.nodup_append] at h
      exact h.2.2 hm (by simp)
    have hstep : foldInsert acc (kv :: l') = foldInsert (acc ++ [kv]) l' := by
      show foldInsert (pyDictInsert acc kv.1 kv.2) l' = foldInsert (acc ++ [kv]) l'
      rw [pyDictInsert_not_mem hnm]
    rw [hstep, ih (acc ++ [kv]) (by simpa using h)]
    simp

theorem skipWs_idem (s : List Char) : skipWs (skipWs s) = skipWs s := by
  induction s with
  | nil => rfl
  | cons c rest ih =>
    by_cases h : (c = ' ' || c = '\t' || c = '\n' || c = '\r') = true
    · simp only [skipWs, h, if_true, if_pos]
      exact ih
    · rw [skipWs_cons_of_not_ws (by simpa using h), skipWs_cons_of_not_ws (by simpa using h)]

theorem parseVal_skipWs (fuel : Nat) (s : List Char) :
    parseVal (fuel + 1) s = parseVal (fuel + 1) (skipWs s) := by
  conv_lhs => rw [parseVal]
  conv_rhs => rw [parseVal]
  rw [skipWs_idem]

theorem parseVal_cons (fuel : Nat) (c : Char) (x : List Char)
    (hnw : (c = ' ' || c = '\t' || c = '\n' || c = '\r') = false) :
    parseVal (fuel + 1) (c :: x) =
      (if c = '\x7b' then
        match skipWs x with
        | [] => none
        | c2 :: rest2 =>
          if c2 = '\x7d' then some (Json.obj [], rest2)
          else parseObjItems fuel [] (c2 :: rest2)
      else if c = '[' then
        match skipWs x with
        | [] => none
        | c2 :: rest2 =>
          if c2 = ']' then some (Json.arr [], rest2)
          else parseArrItems fuel [] (c2 :: rest2)
      else if c = '\"' then
        match parseString x with
        | some (str, rest2) => some (Json.str str, rest2)
        | none => none
      else if c = 't' then
        match x with
        | 'r' :: 'u' :: 'e' :: rest2 => some (Json.bool true, rest2)
        | _ => none
      else if c = 'f' then
        match x with
        | 'a' :: 'l' :: 's' :: 'e' :: rest2 => some (Json.bool false, rest2)
        | _ => none
      else if c = 'n' then
        match x with
        | 'u' :: 'l' :: 'l' :: rest2 => some (Json.null, rest2)
        | _ => none
      else if c = '-' || isDigitC c then
        match parseIntPart (c :: x) with
        | some (n, rest2) => some (Json.num n, rest2)
        | none => none
      else none) := by
  rw [parseVal, skipWs_cons_of_not_ws hnw]

theorem parseVal_digit (fuel : Nat) {c : Char} (x : List Char) (h : isDigitC c = true) :
    parseVal (fuel + 1) (c :: x) =
      (match parseIntPart (c :: x) with
       | some (n, rest2) => some (Json.num n, rest2)
       | none => none) := by
  rw [parseVal_cons fuel c x (not_ws_of_digit h)]
  rw [if_neg (isDigitC_ne h (by decide)), if_neg (isDigitC_ne h (by decide)),
      if_neg (isDigitC_ne h (by decide)), if_neg (isDigitC_ne h (by decide)),
      if_neg (isDigitC_ne h (by decide)), if_neg (isDigitC_ne h (by decide))]
  rw [h]
  simp only [Bool.or_true, if_true]


/-- Combined round-trip statement: with enough fuel, the parser maps
the serialized form of any well-formed value (with arbitrary leading
whitespace and any non-digit continuation) back to the value, and the
two aggregate loops consume item tails exactly. -/
theorem parse_dumps_main : ∀ fuel : Nat,
    (∀ v : Json, needJ v ≤ fuel → WfJson v →
      ∀ (ind : Option Nat) (lvl : Nat) (ws rest : List Char), allWs ws = true →
        digitStart rest = false →
        parseVal fuel (ws ++ (dumpsL ind lvl v ++ rest)) = some (v, rest)) ∧
    (∀ (v : Json) (vs : List Json), needArrItems (v :: vs) ≤ fuel →
      WfJson v → (∀ u ∈ vs, WfJson u) →
      ∀ (acc : List Json) (ind : Option Nat) (lvl lvl0 : Nat) (ws rest : List Char),
        allWs ws = true →
        parseArrItems fuel acc
            (ws ++ (dumpsL ind lvl v ++
              (dumpsArrTail ind lvl vs ++ (nlIndent ind lvl0 ++ ']' :: rest)))) =
          some (Json.arr (acc ++ v :: vs), rest)) ∧
    (∀ (k : String) (v : Json) (kvs : List (String × Json)),
      needObjItems ((k, v) :: kvs) ≤ fuel →
      WfJson v → (∀ u ∈ kvs, WfJson u.2) →
      ∀ (acc : List (String × Json)) (ind : Option Nat) (lvl lvl0 : Nat) (rest : List Char),
        parseObjItems fuel acc
            (encodeString k ++ (':' :: ' ' :: (dumpsL ind lvl v ++
              (dumpsObjTail ind lvl kvs ++ (nlIndent ind lvl0 ++ '\x7d' :: rest))))) =
          some (Json.obj (foldInsert acc ((k, v) :: kvs)), rest)) := by
  intro fuel
  induction fuel with
  | zero =>
    refine ⟨?_, ?_, ?_⟩
    · intro v hneed
      exfalso
      cases v with
      | arr l => cases l <;> simp [needJ] at hneed
      | obj l => cases l <;> simp [needJ] at hneed
      | null => simp [needJ] at hneed
      | bool b => simp [needJ] at hneed
      | num n => simp [needJ] at hneed
      | str s => simp [needJ] at hneed
    · intro v vs hneed
      exfalso
      simp [needArrItems] at hneed
    · intro k v kvs hneed
      exfalso
      simp [needObjItems] at hneed
  | succ fuel ih =>
    obtain ⟨ihV, ihA, ihO⟩ := ih
    refine ⟨?_, ?_, ?_⟩
    · -- values
      intro v hneed hwf ind lvl ws rest hws hrest
      rw [parseVal_skipWs, skipWs_append_allWs hws]
      cases v with
      | null =>
        rw [show dumpsL ind lvl Json.null ++ rest = 'n' :: 'u' :: 'l' :: 'l' :: rest from rfl,
            skipWs_cons_of_not_ws (by decide)]
        rfl
      | bool b =>
        cases b with
        | true =>
          rw [show dumpsL ind lvl (Json.bool true) ++ rest =
                't' :: 'r' :: 'u' :: 'e' :: rest from rfl,
              skipWs_cons_of_not_ws (by decide)]
          rfl
        | false =>
          rw [show dumpsL ind lvl (Json.bool false) ++ rest =
                'f' :: 'a' :: 'l' :: 's' :: 'e' :: rest from rfl,
              skipWs_cons_of_not_ws (by decide)]
          rfl
      | num n =>
        obtain ⟨c, t, hct, hc⟩ := intToChars_head n
        rw [show dumpsL ind lvl (Json.num n) = intToChars n from rfl, hct, List.cons_append]
        have hnw : (c = ' ' || c = '\t' || c = '\n' || c = '\r') = false := by
          rcases hc with hc | hc
          · subst hc; decide
          · exact not_ws_of_digit hc
        rw [skipWs_cons_of_not_ws hnw]
        have hint : parseIntPart (c :: (t ++ rest)) = some (n, rest) := by
          rw [← List.cons_append, ← hct]
          exact parseIntPart_intToChars hrest
        rcases hc with hc | hc
        · subst hc
          rw [parseVal_cons fuel '-' (t ++ rest) (by decide)]
          show (match parseIntPart ('-' :: (t ++ rest)) with
                | some (n, rest2) => some (Json.num n, rest2)
                | none => none) = some (Json.num n, rest)
          rw [hint]
        · rw [parseVal_digit fuel (t ++ rest) hc, hint]
      | str s =>
        rw [show dumpsL ind lvl (Json.str s) ++ rest =
              '\"' :: ((s.toList.flatMap escChar ++ ['\"']) ++ rest) from by
            simp [dumpsL, encodeString]]
        rw [skipWs_cons_of_not_ws (by decide), parseVal_cons fuel '\"' _ (by decide)]
        show (match parseString ((s.toList.flatMap escChar ++ ['\"']) ++ rest) with
              | some (str, rest2) => some (Json.str str, rest2)
              | none => none) = some (Json.str s, rest)
        rw [show (s.toList.flatMap escChar ++ ['\"']) ++ rest =
              s.toList.flatMap escChar ++ '\"' :: rest from by simp]
        rw [parseString_encoded]
      | arr l =>
        cases l with
        | nil =>
          rw [show dumpsL ind lvl (Json.arr []) ++ rest = '[' :: ']' :: rest from rfl,
              skipWs_cons_of_not_ws (by decide)]
          rfl
        | cons v vs =>
          have hA : needArrItems (v :: vs) ≤ fuel := by
            have : needJ (Json.arr (v :: vs)) = 1 + needArrItems (v :: vs) := rfl
            omega
          rw [show dumpsL ind lvl (Json.arr (v :: vs)) ++ rest =
                '[' :: (nlIndent ind (lvl + 1) ++ (dumpsL ind (lvl + 1) v ++
                  (dumpsArrTail ind (lvl + 1) vs ++ (nlIndent ind lvl ++ ']' :: rest)))) from by
              simp [dumpsL]]
          rw [skipWs_cons_of_not_ws (by decide), parseVal_cons fuel '[' _ (by decide)]
          show (match skipWs (nlIndent ind (lvl + 1) ++ (dumpsL ind (lvl + 1) v ++
                  (dumpsArrTail ind (lvl + 1) vs ++ (nlIndent ind lvl ++ ']' :: rest)))) with
                | [] => none
                | c2 :: rest2 =>
                  if c2 = ']' then some (Json.arr [], rest2)
                  else parseArrItems fuel [] (c2 :: rest2)) = some (Json.arr (v :: vs), rest)
          rw [skipWs_append_allWs (allWs_nlIndent ind (lvl + 1)), skipWs_dumpsL]
          obtain ⟨c2, t2, hct2, hc2⟩ := dumpsL_head ind (lvl + 1) v
          have hne : ¬ c2 = ']' := by
            rcases hc2 with hc2 | hc2 | hc2 | hc2 | hc2 | hc2 | hc2 | hc2
            · subst hc2; decide
            · subst hc2; decide
            · subst hc2; decide
            · subst hc2; decide
            · subst hc2; decide
            · subst hc2; decide
            · subst hc2; decide
            · exact isDigitC_ne hc2 (by decide)
          rw [hct2, List.cons_append]
          simp only [if_neg hne]
          rw [← List.cons_append, ← hct2]
          have := ihA v vs hA (wfJson_arr_elem hwf v (by simp))
            (fun u hu => wfJson_arr_elem hwf u (by simp [hu])) [] ind (lvl + 1) lvl [] rest
            (by decide)
          simpa using this
      | obj l =>
        cases l with
        | nil =>
          rw [show dumpsL ind lvl (Json.obj []) ++ rest = '\x7b' :: '\x7d' :: rest from rfl,
              skipWs_cons_of_not_ws (by decide)]
          rfl
        | cons kv kvs =>
          obtain ⟨k, v⟩ := kv
          have hO : needObjItems ((k, v) :: kvs) ≤ fuel := by
            have : needJ (Json.obj ((k, v) :: kvs)) = 1 + needObjItems ((k, v) :: kvs) := rfl
            omega
          rw [show dumpsL ind lvl (Json.obj ((k, v) :: kvs)) ++ rest =
                '\x7b' :: (nlIndent ind (lvl + 1) ++ (encodeString k ++ (':' :: ' ' ::
                  (dumpsL ind (lvl + 1) v ++ (dumpsObjTail ind (lvl + 1) kvs ++
                    (nlIndent ind lvl ++ '\x7d' :: rest)))))) from by
              simp [dumpsL]]
          rw [skipWs_cons_of_not_ws (by decide), parseVal_cons fuel '\x7b' _ (by decide)]
          show (match skipWs (nlIndent ind (lvl + 1) ++ (encodeString k ++ (':' :: ' ' ::
                  (dumpsL ind (lvl + 1) v ++ (dumpsObjTail ind (lvl + 1) kvs ++
                    (nlIndent ind lvl ++ '\x7d' :: rest)))))) with
                | [] => none
                | c2 :: rest2 =>
                  if c2 = '\x7d' then some (Json.obj [], rest2)
                  else parseObjItems fuel [] (c2 :: rest2)) =
            some (Json.obj ((k, v) :: kvs), rest)
          rw [skipWs_append_allWs (allWs_nlIndent ind (lvl + 1))]
          rw [show encodeString k ++ (':' :: ' ' :: (dumpsL ind (lvl + 1) v ++
                (dumpsObjTail ind (lvl + 1) kvs ++ (nlIndent ind lvl ++ '\x7d' :: rest)))) =
              '\"' :: ((k.toList.flatMap escChar ++ ['\"']) ++ (':' :: ' ' ::
                (dumpsL ind (lvl + 1) v ++ (dumpsObjTail ind (lvl + 1) kvs ++
                  (nlIndent ind lvl ++ '\x7d' :: rest))))) from by
            simp [encodeString]]
          rw [skipWs_cons_of_not_ws (by decide)]
          simp only [if_neg (by decide : ¬ ('\"' : Char) = '\x7d')]
          rw [show ('\"' : Char) :: ((k.toList.flatMap escChar ++ ['\"']) ++ (':' :: ' ' ::
                (dumpsL ind (lvl + 1) v ++ (dumpsObjTail ind (lvl + 1) kvs ++
                  (nlIndent ind lvl ++ '\x7d' :: rest))))) =
              encodeString k ++ (':' :: ' ' :: (dumpsL ind (lvl + 1) v ++
                (dumpsObjTail ind (lvl + 1) kvs ++ (nlIndent ind lvl ++ '\x7d' :: rest)))) from by
            simp [encodeString]]
          have := ihO k v kvs hO (wfJson_obj_elem hwf (k, v) (by simp))
            (fun u hu => wfJson_obj_elem hwf u (by simp [hu])) [] ind (lvl + 1) lvl rest
          rw [this]
          have hnodup : (((k, v) :: kvs).map Prod.fst).Nodup := wfJson_obj_nodup hwf
          rw [show foldInsert [] ((k, v) :: kvs) = [] ++ ((k, v) :: kvs) from
                foldInsert_eq_append [] (by simpa using hnodup)]
          simp
    · -- array items
      intro v vs hneed hwfv hwfvs acc ind lvl lvl0 ws rest hws
      have hV : needJ v ≤ fuel := by
        have : needArrItems (v :: vs) = 1 + max (needJ v) (needArrItems vs) := rfl
        omega
      have hA' : needArrItems vs ≤ fuel := by
        have : needArrItems (v :: vs) = 1 + max (needJ v) (needArrItems vs) := rfl
        omega
      rw [parseArrItems]
      have hval := ihV v hV hwfv ind lvl ws
        (dumpsArrTail ind lvl vs ++ (nlIndent ind lvl0 ++ ']' :: rest)) hws
        (digitStart_arrTail ind lvl lvl0 vs (by decide) rest)
      rw [hval]
      simp only []
      cases vs with
      | nil =>
        rw [show dumpsArrTail ind lvl [] ++ (nlIndent ind lvl0 ++ ']' :: rest) =
              nlIndent ind lvl0 ++ ']' :: rest from by simp [dumpsArrTail]]
        rw [skipWs_append_allWs (allWs_nlIndent ind lvl0), skipWs_cons_of_not_ws (by decide)]
        simp
      | cons v2 vs2 =>
        obtain ⟨wsTail, hsep, hwsTail⟩ := itemSep_shape ind lvl
        rw [show dumpsArrTail ind lvl (v2 :: vs2) ++ (nlIndent ind lvl0 ++ ']' :: rest) =
              ',' :: (wsTail ++ (dumpsL ind lvl v2 ++ (dumpsArrTail ind lvl vs2 ++
                (nlIndent ind lvl0 ++ ']' :: rest)))) from by
            rw [show dumpsArrTail ind lvl (v2 :: vs2) =
                  itemSep ind lvl ++ dumpsL ind lvl v2 ++ dumpsArrTail ind lvl vs2 from rfl,
                hsep]
            simp]
        rw [skipWs_cons_of_not_ws (by decide)]
        simp only []
        have := ihA v2 vs2 hA' (hwfvs v2 (by simp)) (fun u hu => hwfvs u (by simp [hu]))
          (acc ++ [v]) ind lvl lvl0 wsTail rest hwsTail
        rw [this]
        simp
    · -- object members
      intro k v kvs hneed hwfv hwfkvs acc ind lvl lvl0 rest
      have hV : needJ v ≤ fuel := by
        have : needObjItems ((k, v) :: kvs) = 1 + max (needJ v) (needObjItems kvs) := rfl
        omega
      have hO' : needObjItems kvs ≤ fuel := by
        have : needObjItems ((k, v) :: kvs) = 1 + max (needJ v) (needObjItems kvs) := rfl
        omega
      rw [show encodeString k ++ (':' :: ' ' :: (dumpsL ind lvl v ++
            (dumpsObjTail ind lvl kvs ++ (nlIndent ind lvl0 ++ '\x7d' :: rest)))) =
          '\"' :: (k.toList.flatMap escChar ++ ('\"' :: (':' :: ' ' :: (dumpsL ind lvl v ++
            (dumpsObjTail ind lvl kvs ++ (nlIndent ind lvl0 ++ '\x7d' :: rest)))))) from by
        simp [encodeString]]
      rw [parseObjItems, if_pos rfl]
      rw [parseString_encoded k]
      simp only []
      rw [skipWs_cons_of_not_ws (by decide)]
      simp only []
      have hval := ihV v hV hwfv ind lvl [' ']
        (dumpsObjTail ind lvl kvs ++ (nlIndent ind lvl0 ++ '\x7d' :: rest)) (by decide)
        (digitStart_objTail ind lvl lvl0 kvs (by decide) rest)
      rw [show (' ' :: (dumpsL ind lvl v ++ (dumpsObjTail ind lvl kvs ++
            (nlIndent ind lvl0 ++ '\x7d' :: rest)))) =
          [' '] ++ (dumpsL ind lvl v ++ (dumpsObjTail ind lvl kvs ++
            (nlIndent ind lvl0 ++ '\x7d' :: rest))) from rfl]
      rw [hval]
      simp only []
      cases kvs with
      | nil =>
        rw [show dumpsObjTail ind lvl [] ++ (nlIndent ind lvl0 ++ '\x7d' :: rest) =
              nlIndent ind lvl0 ++ '\x7d' :: rest from by simp [dumpsObjTail]]
        rw [skipWs_append_allWs (allWs_nlIndent ind lvl0), skipWs_cons_of_not_ws (by decide)]
        simp only []
        rfl
      | cons kv2 kvs2 =>
        obtain ⟨k2, v2⟩ := kv2
        obtain ⟨wsTail, hsep, hwsTail⟩ := itemSep_shape ind lvl
        rw [show dumpsObjTail ind lvl ((k2, v2) :: kvs2) ++ (nlIndent ind lvl0 ++ '\x7d' :: rest) =
              ',' :: (wsTail ++ (encodeString k2 ++ (':' :: ' ' :: (dumpsL ind lvl v2 ++
                (dumpsObjTail ind lvl kvs2 ++ (nlIndent ind lvl0 ++ '\x7d' :: rest)))))) from by
            rw [show dumpsObjTail ind lvl ((k2, v2) :: kvs2) =
                  itemSep ind lvl ++ encodeString k2 ++ [':', ' '] ++ dumpsL ind lvl v2 ++
                    dumpsObjTail ind lvl kvs2 from rfl,
                hsep]
            simp]
        rw [skipWs_cons_of_not_ws (by decide)]
        simp only []
        rw [skipWs_append_allWs hwsTail]
        rw [show encodeString k2 ++ (':' :: ' ' :: (dumpsL ind lvl v2 ++
              (dumpsObjTail ind lvl kvs2 ++ (nlIndent ind lvl0 ++ '\x7d' :: rest)))) =
            '\"' :: ((k2.toList.flatMap escChar ++ ['\"']) ++ (':' :: ' ' ::
              (dumpsL ind lvl v2 ++ (dumpsObjTail ind lvl kvs2 ++
                (nlIndent ind lvl0 ++ '\x7d' :: rest))))) from by
          simp [encodeString]]
        rw [skipWs_cons_of_not_ws (by decide)]
        rw [show ('\"' : Char) :: ((k2.toList.flatMap escChar ++ ['\"']) ++ (':' :: ' ' ::
              (dumpsL ind lvl v2 ++ (dumpsObjTail ind lvl kvs2 ++
                (nlIndent ind lvl0 ++ '\x7d' :: rest))))) =
            encodeString k2 ++ (':' :: ' ' :: (dumpsL ind lvl v2 ++
              (dumpsObjTail ind lvl kvs2 ++ (nlIndent ind lvl0 ++ '\x7d' :: rest)))) from by
          simp [encodeString]]
        have := ihO k2 v2 kvs2 hO' (hwfkvs (k2, v2) (by simp))
          (fun u hu => hwfkvs u (by simp [hu])) (pyDictInsert acc k v) ind lvl lvl0 rest
        rw [this]
        rfl

theorem toList_asString (l : List Char) : (List.asString l).toList = l := by
  simp [List.asString, String.toList]

theorem need_le_dumps_length : ∀ n : Nat,
    (∀ v : Json, sizeOf v ≤ n → ∀ ind lvl, needJ v ≤ (dumpsL ind lvl v).length) ∧
    (∀ vs : List Json, sizeOf vs ≤ n → ∀ ind lvl,
      needArrItems vs ≤ (dumpsArrTail ind lvl vs).length) ∧
    (∀ kvs : List (String × Json), sizeOf kvs ≤ n → ∀ ind lvl,
      needObjItems kvs ≤ (dumpsObjTail ind lvl kvs).length) := by
  intro n
  induction n with
  | zero =>
    refine ⟨?_, ?_, ?_⟩
    · intro v hv
      exfalso
      cases v <;> simp at hv
    · intro vs hv
      exfalso
      cases vs <;> simp at hv
    · intro kvs hv
      exfalso
      cases kvs <;> simp at hv
  | succ n ih =>
    obtain ⟨ihV, ihA, ihO⟩ := ih
    refine ⟨?_, ?_, ?_⟩
    · intro v hv ind lvl
      cases v with
      | null => simp [needJ, dumpsL]
      | bool b => cases b <;> simp [needJ, dumpsL]
      | num m =>
        obtain ⟨c, t, hct, _⟩ := intToChars_head m
        simp [needJ, dumpsL, hct]
      | str s => simp [needJ, dumpsL, encodeString]
      | arr l =>
        cases l with
        | nil => simp [needJ, dumpsL]
        | cons v vs =>
          have h1 : needJ v ≤ (dumpsL ind (lvl + 1) v).length := by
            refine ihV v ?_ ind (lvl + 1)
            simp at hv
            omega
          have h2 : needArrItems vs ≤ (dumpsArrTail ind (lvl + 1) vs).length := by
            refine ihA vs ?_ ind (lvl + 1)
            simp at hv
            omega
          have hshape : (dumpsL ind lvl (Json.arr (v :: vs))).length =
              1 + (nlIndent ind (lvl + 1)).length + (dumpsL ind (lvl + 1) v).length +
                (dumpsArrTail ind (lvl + 1) vs).length + (nlIndent ind lvl).length + 1 := by
            rw [show dumpsL ind lvl (Json.arr (v :: vs)) =
                  '[' :: nlIndent ind (lvl + 1) ++ dumpsL ind (lvl + 1) v ++
                    dumpsArrTail ind (lvl + 1) vs ++ nlIndent ind lvl ++ [']'] from rfl]
            simp
            omega
          have hneed : needJ (Json.arr (v :: vs)) =
              1 + (1 + max (needJ v) (needArrItems vs)) := rfl
          rw [hneed, hshape]
          omega
      | obj l =>
        cases l with
        | nil => simp [needJ, dumpsL]
        | cons kv kvs =>
          have h1 : needJ kv.2 ≤ (dumpsL ind (lvl + 1) kv.2).length := by
            refine ihV kv.2 ?_ ind (lvl + 1)
            obtain ⟨k, v⟩ := kv
            simp at hv ⊢
            omega
          have h2 : needObjItems kvs ≤ (dumpsObjTail ind (lvl + 1) kvs).length := by
            refine ihO kvs ?_ ind (lvl + 1)
            simp at hv
            omega
          have hshape : (dumpsL ind lvl (Json.obj (kv :: kvs))).length =
              1 + (nlIndent ind (lvl + 1)).length + (encodeString kv.1).length + 2 +
                (dumpsL ind (lvl + 1) kv.2).length + (dumpsObjTail ind (lvl + 1) kvs).length +
                (nlIndent ind lvl).length + 1 := by
            rw [show dumpsL ind lvl (Json.obj (kv :: kvs)) =
                  '\x7b' :: nlIndent ind (lvl + 1) ++ encodeString kv.1 ++ [':', ' '] ++
                    dumpsL ind (lvl + 1) kv.2 ++ dumpsObjTail ind (lvl + 1) kvs ++
                    nlIndent ind lvl ++ ['\x7d'] from rfl]
            simp
            omega
          have hneed : needJ (Json.obj (kv :: kvs)) =
              1 + (1 + max (needJ kv.2) (needObjItems kvs)) := rfl
          rw [hneed, hshape]
          omega
    · intro vs hv ind lvl
      cases vs with
      | nil => simp [needArrItems, dumpsArrTail]
      | cons v vs2 =>
        have h1 : needJ v ≤ (dumpsL ind lvl v).length := by
          refine ihV v ?_ ind lvl
          simp at hv
          omega
        have h2 : needArrItems vs2 ≤ (dumpsArrTail ind lvl vs2).length := by
          refine ihA vs2 ?_ ind lvl
          simp at hv
          omega
        have hsep : 1 ≤ (itemSep ind lvl).length := by
          cases ind <;> simp [itemSep, nlIndent]
        have hshape : (dumpsArrTail ind lvl (v :: vs2)).length =
            (itemSep ind lvl).length + (dumpsL ind lvl v).length +
              (dumpsArrTail ind lvl vs2).length := by
          rw [show dumpsArrTail ind lvl (v :: vs2) =
                itemSep ind lvl ++ dumpsL ind lvl v ++ dumpsArrTail ind lvl vs2 from rfl]
          simp
          omega
        have hneed : needArrItems (v :: vs2) = 1 + max (needJ v) (needArrItems vs2) := rfl
        rw [hneed, hshape]
        omega
    · intro kvs hv ind lvl
      cases kvs with
      | nil => simp [needObjItems, dumpsObjTail]
      | cons kv kvs2 =>
        have h1 : needJ kv.2 ≤ (dumpsL ind lvl kv.2).length := by
          refine ihV kv.2 ?_ ind lvl
          obtain ⟨k, v⟩ := kv
          simp at hv ⊢
          omega
        have h2 : needObjItems kvs2 ≤ (dumpsObjTail ind lvl kvs2).length := by
          refine ihO kvs2 ?_ ind lvl
          simp at hv
          omega
        have hsep : 1 ≤ (itemSep ind lvl).length := by
          cases ind <;> simp [itemSep, nlIndent]
        have hshape : (dumpsObjTail ind lvl (kv :: kvs2)).length =
            (itemSep ind lvl).length + (encodeString kv.1).length + 2 +
              (dumpsL ind lvl kv.2).length + (dumpsObjTail ind lvl kvs2).length := by
          rw [show dumpsObjTail ind lvl (kv :: kvs2) =
                itemSep ind lvl ++ encodeString kv.1 ++ [':', ' '] ++ dumpsL ind lvl kv.2 ++
                  dumpsObjTail ind lvl kvs2 from rfl]
          simp
          omega
        have hneed : needObjItems (kv :: kvs2) = 1 + max (needJ kv.2) (needObjItems kvs2) := rfl
        rw [hneed, hshape]
        omega

/-- Round trip of the json module on well-formed values: parsing the
serialized form of a bundle (with or without indentation) returns the
value built in memory. -/
theorem pyJsonLoads_dumps (v : Json) (hwf : WfJson v) (ind : Option Nat) :
    pyJsonLoads (pyJsonDumps ind v) = Except.ok v := by
  rw [pyJsonLoads, pyJsonDumps, toList_asString]
  have hfuel : needJ v ≤ (dumpsL ind 0 v).length + 1 := by
    have := (need_le_dumps_length (sizeOf v)).1 v (le_refl _) ind 0
    omega
  cases hl : (dumpsL ind 0 v).length + 1 with
  | zero => omega
  | succ m =>
    have hmain := (parse_dumps_main (m + 1)).1 v (by omega) hwf ind 0 [] [] (by decide) (by decide)
    simp only [List.nil_append, List.append_nil] at hmain
    rw [hmain]
    rfl

/-! Well-formedness of parsed values: every dictionary the parser
builds has pairwise distinct keys, because members are assigned with
dictionary insertion. -/

theorem pyDictInsert_keys_sub {acc : List (String × Json)} {k x : String} {v : Json}
    (h : x ∈ (pyDictInsert acc k v).map Prod.fst) : x ∈ acc.map Prod.fst ∨ x = k := by
  induction acc with
  | nil => simpa [pyDictInsert] using h
  | cons kv acc' ih =>
    by_cases hk : kv.1 = k
    · obtain ⟨k0, v0⟩ := kv
      simp only [pyDictInsert] at h
      rw [if_pos hk] at h
      simp only [List.map_cons, List.mem_cons] at h
      rcases h with h | h
      · exact Or.inl (by simp [h])
      · exact Or.inl (by simp [h])
    · obtain ⟨k0, v0⟩ := kv
      simp only [pyDictInsert] at h
      rw [if_neg hk] at h
      simp only [List.map_cons, List.mem_cons] at h
      rcases h with h | h
      · exact Or.inl (by simp [h])
      · rcases ih h with h1 | h1
        · exact Or.inl (by simp [h1])
        · exact Or.inr h1

theorem pyDictInsert_keys_nodup {acc : List (String × Json)} {k : String} {v : Json}
    (h : (acc.map Prod.fst).Nodup) : ((pyDictInsert acc k v).map Prod.fst).Nodup := by
  induction acc with
  | nil => simp [pyDictInsert]
  | cons kv acc' ih =>
    obtain ⟨k0, v0⟩ := kv
    simp only [List.map_cons, List.nodup_cons] at h
    by_cases hk : k0 = k
    · simp only [pyDictInsert, if_pos hk, List.map_cons, List.nodup_cons]
      exact ⟨h.1, h.2⟩
    · simp only [pyDictInsert, if_neg hk, List.map_cons, List.nodup_cons]
      refine ⟨?_, ih h.2⟩
      intro hmem
      rcases pyDictInsert_keys_sub hmem with h1 | h1
      · exact h.1 h1
      · exact hk h1

theorem pyDictInsert_values_wf {acc : List (String × Json)} {k : String} {v : Json}
    (hacc : ∀ u ∈ acc, WfJson u.2) (hv : WfJson v) :
    ∀ u ∈ pyDictInsert acc k v, WfJson u.2 := by
  induction acc with
  | nil =>
    intro u hu
    simp only [pyDictInsert, List.mem_singleton] at hu
    subst hu
    exact hv
  | cons kv acc' ih =>
    intro u hu
    obtain ⟨k0, v0⟩ := kv
    by_cases hk : k0 = k
    · simp only [pyDictInsert, if_pos hk, List.mem_cons] at hu
      rcases hu with rfl | hu
      · exact hv
      · exact hacc u (by simp [hu])
    · simp only [pyDictInsert, if_neg hk, List.mem_cons] at hu
      rcases hu with rfl | hu
      · exact hacc (k0, v0) (by simp)
      · exact ih (fun u hu => hacc u (by simp [hu])) u hu

theorem parser_wf : ∀ fuel : Nat,
    (∀ s v rest, parseVal fuel s = some (v, rest) → WfJson v) ∧
    (∀ acc s v rest, (∀ u ∈ acc, WfJson u) →
      parseArrItems fuel acc s = some (v, rest) → WfJson v) ∧
    (∀ acc s v rest, (∀ u ∈ acc, WfJson u.2) → ((acc.map Prod.fst).Nodup) →
      parseObjItems fuel acc s = some (v, rest) → WfJson v) := by
  intro fuel
  induction fuel with
  | zero =>
    refine ⟨?_, ?_, ?_⟩ <;> (intro _ _ _ h; first | (intro _ h) | skip) <;> simp [parseVal, parseArrItems, parseObjItems] at *
  | succ fuel ih =>
    obtain ⟨ihV, ihA, ihO⟩ := ih
    refine ⟨?_, ?_, ?_⟩
    · intro s v rest h
      rw [parseVal] at h
      split at h
      · exact absurd h (by simp)
      · split at h
        · split at h
          · exact absurd h (by simp)
          · split at h
            · cases h
              exact WfJson.obj [] (by simp) (by simp)
            · exact ihO [] _ v rest (by simp) (by simp) h
        · split at h
          · split at h
            · exact absurd h (by simp)
            · split at h
              · cases h
                exact WfJson.arr [] (by simp)
              · exact ihA [] _ v rest (by simp) h
          · split at h
            · split at h
              · cases h
                exact WfJson.str _
              · exact absurd h (by simp)
            · split at h
              · split at h
                · cases h
                  exact WfJson.bool true
                · exact absurd h (by simp)
              · split at h
                · split at h
                  · cases h
                    exact WfJson.bool false
                  · exact absurd h (by simp)
                · split at h
                  · split at h
                    · cases h
                      exact WfJson.null
                    · exact absurd h (by simp)
                  · split at h
                    · split at h
                      · cases h
                        exact WfJson.num _
                      · exact absurd h (by simp)
                    · exact absurd h (by simp)
    · intro acc s v rest hacc h
      rw [parseArrItems] at h
      split at h
      · exact absurd h (by simp)
      · rename_i v' rest' heq
        have hwf' : WfJson v' := ihV s v' rest' heq
        split at h
        · refine ihA (acc ++ [v']) _ v rest ?_ h
          intro u hu
          rcases List.mem_append.mp hu with hu | hu
          · exact hacc u hu
          · rw [List.mem_singleton.mp hu]
            exact hwf'
        · cases h
          refine WfJson.arr _ ?_
          intro u hu
          rcases List.mem_append.mp hu with hu | hu
          · exact hacc u hu
          · rw [List.mem_singleton.mp hu]
            exact hwf'
        · exact absurd h (by simp)
    · intro acc s v rest hacc hnd h
      cases s with
      | nil =>
        have hnone : parseObjItems (fuel + 1) acc [] = none := rfl
        rw [hnone] at h
        exact Option.noConfusion h
      | cons c0 s1 =>
        rw [parseObjItems] at h
        by_cases hc0 : c0 = '\"'
        · rw [if_pos hc0] at h
          split at h
          all_goals try exact Option.noConfusion h
          rename_i k rest2 heqs
          split at h
          all_goals try exact Option.noConfusion h
          split at h
          all_goals try exact Option.noConfusion h
          rename_i v2 rest4 heqv
          have hwf2 : WfJson v2 := ihV _ v2 rest4 heqv
          split at h
          all_goals try exact Option.noConfusion h
          · exact ihO (pyDictInsert acc k v2) _ v rest
              (pyDictInsert_values_wf hacc hwf2) (pyDictInsert_keys_nodup hnd) h
          · cases h
            exact WfJson.obj _ (pyDictInsert_values_wf hacc hwf2) (pyDictInsert_keys_nodup hnd)
        · rw [if_neg hc0] at h
          exact Option.noConfusion h

theorem pyJsonLoads_wf {s : String} {v : Json} (h : pyJsonLoads s = Except.ok v) :
    WfJson v := by
  rw [pyJsonLoads] at h
  split at h
  · rename_i v2 rest2 heq
    split at h
    · cases h
      exact (parser_wf _).1 _ _ _ heq
    · exact Except.noConfusion h
  · exact Except.noConfusion h

theorem loadAstFilesAux_wf : ∀ (paths : List String) (fs : FS)
    (acc res : List (String × Json)),
    (∀ u ∈ acc, WfJson u.2) → ((acc.map Prod.fst).Nodup) →
    loadAstFilesAux fs acc paths = Except.ok res →
    (∀ u ∈ res, WfJson u.2) ∧ (res.map Prod.fst).Nodup := by
  intro paths
  induction paths with
  | nil =>
    intro fs acc res hacc hnd h
    rw [show loadAstFilesAux fs acc [] = Except.ok acc from rfl] at h
    cases h
    exact ⟨hacc, hnd⟩
  | cons p ps ih =>
    intro fs acc res hacc hnd h
    rw [show loadAstFilesAux fs acc (p :: ps) =
          (do
            let content ← fsReadE fs p
            let v ← pyJsonLoads content
            loadAstFilesAux fs (pyDictInsert acc (astKeyOfPath p) v) ps) from rfl] at h
    cases hr : fsReadE fs p with
    | error e =>
      rw [hr] at h
      exact Except.noConfusion h
    | ok content =>
      rw [hr] at h
      simp only [bind, Except.bind] at h
      cases hl : pyJsonLoads content with
      | error e =>
        rw [hl] at h
        exact Except.noConfusion h
      | ok v2 =>
        rw [hl] at h
        simp only [bind, Except.bind] at h
        exact ih fs (pyDictInsert acc (astKeyOfPath p) v2) res
          (pyDictInsert_values_wf hacc (pyJsonLoads_wf hl))
          (pyDictInsert_keys_nodup hnd) h

theorem combineBundle_wf {fs : FS} {repo : String} {b : Json}
    (h : combineBundle fs repo = Except.ok b) : WfJson b := by
  rw [combineBundle] at h
  cases h1 : fsReadE fs (rawDir repo ++ "/files.txt") with
  | error e => rw [h1] at h; exact Except.noConfusion h
  | ok filesTxt =>
  rw [h1] at h
  simp only [bind, Except.bind] at h
  cases h2 : fsReadE fs (rawDir repo ++ "/cflow.txt") with
  | error e => rw [h2] at h; exact Except.noConfusion h
  | ok cg =>
  rw [h2] at h
  simp only [bind, Except.bind] at h
  cases h3 : fsReadE fs (rawDir repo ++ "/ctags.txt") with
  | error e => rw [h3] at h; exact Except.noConfusion h
  | ok ct =>
  rw [h3] at h
  simp only [bind, Except.bind] at h
  cases h4 : fsReadE fs (rawDir repo ++ "/clang-tidy.txt") with
  | error e => rw [h4] at h; exact Except.noConfusion h
  | ok cl =>
  rw [h4] at h
  simp only [bind, Except.bind] at h
  cases h5 : fsReadE fs (rawDir repo ++ "/cppcheck.xml") with
  | error e => rw [h5] at h; exact Except.noConfusion h
  | ok cp =>
  rw [h5] at h
  simp only [bind, Except.bind] at h
  cases h6 : fsReadE fs (rawDir repo ++ "/complexity.txt") with
  | error e => rw [h6] at h; exact Except.noConfusion h
  | ok cx =>
  rw [h6] at h
  simp only [bind, Except.bind] at h
  cases h7 : loadAstFilesAux fs [] (globAstJson fs (rawDir repo)) with
  | error e => rw [h7] at h; exact Except.noConfusion h
  | ok astPairs =>
  rw [h7] at h
  simp only [bind, Except.bind, Except.ok.injEq] at h
  subst h
  have hast := loadAstFilesAux_wf _ fs [] astPairs (by simp) (by simp) h7
  refine WfJson.obj _ ?_ ?_
  · intro kv hkv
    simp only [List.mem_cons] at hkv
    rcases hkv with rfl | rfl | rfl | rfl | rfl | rfl | rfl | hkv
    · refine WfJson.arr _ ?_
      intro u hu
      simp only [List.mem_map] at hu
      obtain ⟨l, _, rfl⟩ := hu
      exact WfJson.str l
    · exact WfJson.str cg
    · exact WfJson.str ct
    · exact WfJson.str cl
    · exact WfJson.str cp
    · exact WfJson.str cx
    · exact WfJson.obj _ hast.1 hast.2
    · exact absurd hkv (List.not_mem_nil _)
  · simp only [List.map_cons, List.map_nil]
    decide

/-! Facts about the builder main. -/

theorem fsReadE_makedirs (fs : FS) (d p : String) :
    fsReadE (makedirs fs d) p = fsReadE fs p := rfl

theorem globAstJson_makedirs (fs : FS) (d dir : String) :
    globAstJson (makedirs fs d) dir = globAstJson fs dir := rfl

theorem loadAstFilesAux_makedirs (fs : FS) (d : String) :
    ∀ (paths : List String) (acc : List (String × Json)),
      loadAstFilesAux (makedirs fs d) acc paths = loadAstFilesAux fs acc paths := by
  intro paths
  induction paths with
  | nil => intro acc; rfl
  | cons p ps ih =>
    intro acc
    rw [show loadAstFilesAux (makedirs fs d) acc (p :: ps) =
          (do
            let content ← fsReadE (makedirs fs d) p
            let v ← pyJsonLoads content
            loadAstFilesAux (makedirs fs d) (pyDictInsert acc (astKeyOfPath p) v) ps) from rfl]
    rw [show loadAstFilesAux fs acc (p :: ps) =
          (do
            let content ← fsReadE fs p
            let v ← pyJsonLoads content
            loadAstFilesAux fs (pyDictInsert acc (astKeyOfPath p) v) ps) from rfl]
    rw [fsReadE_makedirs]
    cases hr : fsReadE fs p with
    | error e => rfl
    | ok content =>
      simp only [bind, Except.bind]
      cases hl : pyJsonLoads content with
      | error e => rfl
      | ok v =>
        exact ih (pyDictInsert acc (astKeyOfPath p) v)

theorem combineBundle_makedirs (fs : FS) (d : String) (repo : String) :
    combineBundle (makedirs fs d) repo = combineBundle fs repo := by
  rw [combineBundle, combineBundle]
  simp only [fsReadE_makedirs, globAstJson_makedirs, loadAstFilesAux_makedirs]

theorem alookup_aset_self {α : Type} (d : List (String × α)) (k : String) (v : α) :
    alookup (aset d k v) k = some v := by
  induction d with
  | nil => simp [aset, alookup]
  | cons kv d' ih =>
    by_cases hk : kv.1 = k
    · obtain ⟨k0, v0⟩ := kv
      simp only [aset, alookup] at hk ⊢
      rw [if_pos hk, alookup, if_pos hk]
    · obtain ⟨k0, v0⟩ := kv
      simp only [aset, alookup] at hk ⊢
      rw [if_neg hk, alookup, if_neg hk]
      exact ih

theorem combine_main_ok {fs : FS} {repo : String} {b : Json}
    (h : combineBundle fs repo = Except.ok b) :
    combine_main ["combine.py", repo] fs =
      ⟨fsWrite (makedirs fs (combinedDir repo)) (combinedDir repo ++ "/bundle.json")
         (pyJsonDumps (some 2) b),
       ["[INFO] Bundle created at " ++ (combinedDir repo ++ "/bundle.json")], Term.exited 0⟩ := by
  rw [combine_main]
  rw [if_neg (by simp)]
  simp only [List.getD]
  rw [show (["combine.py", repo].get? 1).getD "" = repo from rfl]
  rw [combineBundle_makedirs, h]

theorem combine_main_raised {fs : FS} {repo : String} {e : PyErr}
    (h : combineBundle fs repo = Except.error e) :
    combine_main ["combine.py", repo] fs =
      ⟨makedirs fs (combinedDir repo), [], Term.raised e⟩ := by
  rw [combine_main]
  rw [if_neg (by simp)]
  simp only [List.getD]
  rw [show (["combine.py", repo].get? 1).getD "" = repo from rfl]
  rw [combineBundle_makedirs, h]

theorem makedirs_files (fs : FS) (d : String) : (makedirs fs d).files = fs.files := rfl

theorem fsReadE_none {fs : FS} {p : String} (h : alookup fs.files p = none) :
    fsReadE fs p = Except.error (PyErr.fileNotFound p) := by
  rw [fsReadE, h]

theorem fsReadE_some {fs : FS} {p : String} {c : String} (h : alookup fs.files p = some c) :
    fsReadE fs p = Except.ok c := by
  rw [fsReadE, h]

/-! Facts about the renderer main. -/

theorem render_main_missing_bundle {fs : FS} {repo now : String}
    (h : alookup fs.files ("../outputs/combined/" ++ repo ++ "/bundle.json") = none) :
    render_html_main ["render_html.py", repo] now fs =
      ⟨makedirs fs ("../outputs/final/" ++ repo),
       ["ERROR: Bundle not found at " ++ ("../outputs/combined/" ++ repo ++ "/bundle.json"), "",
        "Run combine.py first:", "  python combine.py " ++ repo],
       Term.exited 1⟩ := by
  rw [render_html_main]
  rw [if_neg (by simp)]
  simp only [List.getD]
  rw [show (["render_html.py", repo].get? 1).getD "" = repo from rfl]
  rw [show (makedirs fs ("../outputs/final/" ++ repo)).files = fs.files from rfl, h]

theorem render_main_bad_bundle {fs : FS} {repo now content : String} {e : PyErr}
    (hc : alookup fs.files ("../outputs/combined/" ++ repo ++ "/bundle.json") = some content)
    (hj : pyJsonLoads content = Except.error e) :
    render_html_main ["render_html.py", repo] now fs =
      ⟨makedirs fs ("../outputs/final/" ++ repo),
       ["ERROR: Invalid JSON in bundle: <message elided>", "",
        "Bundle may be corrupted. Re-run combine.py:", "  python combine.py " ++ repo],
       Term.exited 1⟩ := by
  rw [render_html_main]
  rw [if_neg (by simp)]
  simp only [List.getD]
  rw [show (["render_html.py", repo].get? 1).getD "" = repo from rfl]
  rw [show (makedirs fs ("../outputs/final/" ++ repo)).files = fs.files from rfl, hc]
  dsimp only
  rw [hj]

/-! Claim C4: build, serialize, re-parse round trip. -/

/-- C4: for every artifact set from which the builder succeeds, the
bundle written to bundle.json is the indented serialization of the
in-memory bundle, and parsing that serialization back (as the renderer
does after reading the file) returns a value equal to the in-memory
bundle: the JSON round trip is lossless. -/
theorem c4_bundle_roundtrip {fs : FS} {repo : String} {b : Json}
    (h : combineBundle fs repo = Except.ok b) :
    alookup (combine_main ["combine.py", repo] fs).fs.files
        (combinedDir repo ++ "/bundle.json") = some (pyJsonDumps (some 2) b) ∧
    pyJsonLoads (pyJsonDumps (some 2) b) = Except.ok b := by
  constructor
  · rw [combine_main_ok h]
    exact alookup_aset_self _ _ _
  · exact pyJsonLoads_dumps b (combineBundle_wf h) (some 2)

/-- Witness for C4 at the concrete artifact set c4FS. -/
theorem c4_bundle_roundtrip_witness :
    combineBundle c4FS "demo" = Except.ok c4ExpectedBundle ∧
    (alookup (combine_main ["combine.py", "demo"] c4FS).fs.files
        (combinedDir "demo" ++ "/bundle.json") = some (pyJsonDumps (some 2) c4ExpectedBundle) ∧
     pyJsonLoads (pyJsonDumps (some 2) c4ExpectedBundle) = Except.ok c4ExpectedBundle) :=
  ⟨rfl, c4_bundle_roundtrip rfl⟩

/-! Claim C9: usage errors exit before any side effect. -/

/-- C9: an invocation of either main with an argument count other
than exactly one positional argument prints the usage line and exits
with status 1, leaving the filesystem exactly as it was: no directory
is created and nothing is written. -/
theorem c9_usage_exit (argv : List String) (now : String) (fs : FS)
    (h : argv.length ≠ 2) :
    combine_main argv fs = ⟨fs, [combine_usage], Term.exited 1⟩ ∧
    render_html_main argv now fs = ⟨fs, [render_usage], Term.exited 1⟩ := by
  rw [combine_main, render_html_main, if_pos h, if_pos h]
  exact ⟨rfl, rfl⟩

/-- Witness for C9 at an empty argument vector. -/
theorem c9_usage_exit_witness :
    ([] : List String).length ≠ 2 ∧
    (combine_main [] c4FS = ⟨c4FS, [combine_usage], Term.exited 1⟩ ∧
     render_html_main [] "T" c4FS = ⟨c4FS, [render_usage], Term.exited 1⟩) :=
  ⟨by decide, c9_usage_exit [] "T" c4FS (by decide)⟩

/-! Claim C7: the two bundle-load failure modes of the renderer. -/

/-- C7: with a repository whose bundle.json is absent the renderer
exits with status 1 after a message naming the combine.py command to
re-run; with a bundle file that is not valid JSON it exits with
status 1 after a distinct invalid-JSON message; in both cases the
file listing is untouched, so no report is produced. -/
theorem c7_renderer_failures (fs : FS) (repo now : String) :
    (alookup fs.files ("../outputs/combined/" ++ repo ++ "/bundle.json") = none →
      render_html_main ["render_html.py", repo] now fs =
        ⟨makedirs fs ("../outputs/final/" ++ repo),
         ["ERROR: Bundle not found at " ++ ("../outputs/combined/" ++ repo ++ "/bundle.json"),
          "", "Run combine.py first:", "  python combine.py " ++ repo],
         Term.exited 1⟩) ∧
    (∀ content e,
      alookup fs.files ("../outputs/combined/" ++ repo ++ "/bundle.json") = some content →
      pyJsonLoads content = Except.error e →
      render_html_main ["render_html.py", repo] now fs =
        ⟨makedirs fs ("../outputs/final/" ++ repo),
         ["ERROR: Invalid JSON in bundle: <message elided>", "",
          "Bundle may be corrupted. Re-run combine.py:", "  python combine.py " ++ repo],
         Term.exited 1⟩) ∧
    (makedirs fs ("../outputs/final/" ++ repo)).files = fs.files := by
  refine ⟨fun h => render_main_missing_bundle h, fun content e hc hj => ?_, rfl⟩
  exact render_main_bad_bundle hc hj

/-- Witness for C7 at a filesystem without the bundle and one with a
malformed bundle. -/
theorem c7_renderer_failures_witness :
    (alookup c7FSMissing.files ("../outputs/combined/" ++ "demo" ++ "/bundle.json") = none ∧
     render_html_main ["render_html.py", "demo"] "T" c7FSMissing =
       ⟨makedirs c7FSMissing ("../outputs/final/" ++ "demo"),
        ["ERROR: Bundle not found at " ++ ("../outputs/combined/" ++ "demo" ++ "/bundle.json"),
         "", "Run combine.py first:", "  python combine.py " ++ "demo"],
        Term.exited 1⟩) ∧
    (alookup c7FSBad.files ("../outputs/combined/" ++ "demo" ++ "/bundle.json") =
       some "not json" ∧
     pyJsonLoads "not json" = Except.error PyErr.jsonDecode ∧
     render_html_main ["render_html.py", "demo"] "T" c7FSBad =
       ⟨makedirs c7FSBad ("../outputs/final/" ++ "demo"),
        ["ERROR: Invalid JSON in bundle: <message elided>", "",
         "Bundle may be corrupted. Re-run combine.py:", "  python combine.py " ++ "demo"],
        Term.exited 1⟩) :=
  ⟨⟨rfl, (c7_renderer_failures c7FSMissing "demo" "T").1 rfl⟩,
   ⟨rfl, rfl, (c7_renderer_failures c7FSBad "demo" "T").2.1 "not json" PyErr.jsonDecode rfl rfl⟩⟩

/-! Claim C6: a missing fixed artifact is fatal. -/

/-- C6: whenever one of the six fixed text artifacts is missing from
the raw directory, the builder terminates with an uncaught
FileNotFoundError naming a missing artifact, prints nothing, and
leaves the file listing unchanged: no bundle.json is written and a
previously written bundle file keeps its content. -/
theorem c6_missing_artifact_fatal (fs : FS) (repo : String)
    (h : ∃ p ∈ sixArtifactPaths repo, alookup fs.files p = none) :
    ∃ p, p ∈ sixArtifactPaths repo ∧ alookup fs.files p = none ∧
      combine_main ["combine.py", repo] fs =
        ⟨makedirs fs (combinedDir repo), [], Term.raised (PyErr.fileNotFound p)⟩ ∧
      (combine_main ["combine.py", repo] fs).fs.files = fs.files := by
  cases hx1 : alookup fs.files (rawDir repo ++ "/files.txt") with
  | none =>
    have hcb : combineBundle fs repo =
        Except.error (PyErr.fileNotFound (rawDir repo ++ "/files.txt")) := by
      rw [combineBundle, fsReadE_none hx1]
      rfl
    have hrun := combine_main_raised hcb
    exact ⟨_, by simp [sixArtifactPaths], hx1, hrun, by rw [hrun]; rfl⟩
  | some c1 =>
  cases hx2 : alookup fs.files (rawDir repo ++ "/cflow.txt") with
  | none =>
    have hcb : combineBundle fs repo =
        Except.error (PyErr.fileNotFound (rawDir repo ++ "/cflow.txt")) := by
      rw [combineBundle, fsReadE_some hx1]
      simp only [bind, Except.bind]
      rw [fsReadE_none hx2]
    have hrun := combine_main_raised hcb
    exact ⟨_, by simp [sixArtifactPaths], hx2, hrun, by rw [hrun]; rfl⟩
  | some c2 =>
  cases hx3 : alookup fs.files (rawDir repo ++ "/ctags.txt") with
  | none =>
    have hcb : combineBundle fs repo =
        Except.error (PyErr.fileNotFound (rawDir repo ++ "/ctags.txt")) := by
      rw [combineBundle, fsReadE_some hx1]
      simp only [bind, Except.bind]
      rw [fsReadE_some hx2]
      simp only [bind, Except.bind]
      rw [fsReadE_none hx3]
    have hrun := combine_main_raised hcb
    exact ⟨_, by simp [sixArtifactPaths], hx3, hrun, by rw [hrun]; rfl⟩
  | some c3 =>
  cases hx4 : alookup fs.files (rawDir repo ++ "/clang-tidy.txt") with
  | none =>
    have hcb : combineBundle fs repo =
        Except.error (PyErr.fileNotFound (rawDir repo ++ "/clang-tidy.txt")) := by
      rw [combineBundle, fsReadE_some hx1]
      simp only [bind, Except.bind]
      rw [fsReadE_some hx2]
      simp only [bind, Except.bind]
      rw [fsReadE_some hx3]
      simp only [bind, Except.bind]
      rw [fsReadE_none hx4]
    have hrun := combine_main_raised hcb
    exact ⟨_, by simp [sixArtifactPaths], hx4, hrun, by rw [hrun]; rfl⟩
  | some c4 =>
  cases hx5 : alookup fs.files (rawDir repo ++ "/cppcheck.xml") with
  | none =>
    have hcb : combineBundle fs repo =
        Except.error (PyErr.fileNotFound (rawDir repo ++ "/cppcheck.xml")) := by
      rw [combineBundle, fsReadE_some hx1]
      simp only [bind, Except.bind]
      rw [fsReadE_some hx2]
      simp only [bind, Except.bind]
      rw [fsReadE_some hx3]
      simp only [bind, Except.bind]
      rw [fsReadE_some hx4]
      simp only [bind, Except.bind]
      rw [fsReadE_none hx5]
    have hrun := combine_main_raised hcb
    exact ⟨_, by simp [sixArtifactPaths], hx5, hrun, by rw [hrun]; rfl⟩
  | some c5 =>
  cases hx6 : alookup fs.files (rawDir repo ++ "/complexity.txt") with
  | none =>
    have hcb : combineBundle fs repo =
        Except.error (PyErr.fileNotFound (rawDir repo ++ "/complexity.txt")) := by
      rw [combineBundle, fsReadE_some hx1]
      simp only [bind, Except.bind]
      rw [fsReadE_some hx2]
      simp only [bind, Except.bind]
      rw [fsReadE_some hx3]
      simp only [bind, Except.bind]
      rw [fsReadE_some hx4]
      simp only [bind, Except.bind]
      rw [fsReadE_some hx5]
      simp only [bind, Except.bind]
      rw [fsReadE_none hx6]
    have hrun := combine_main_raised hcb
    exact ⟨_, by simp [sixArtifactPaths], hx6, hrun, by rw [hrun]; rfl⟩
  | some c6 =>
    exfalso
    obtain ⟨p, hp, hnone⟩ := h
    simp only [sixArtifactPaths, List.mem_cons, List.not_mem_nil, or_false] at hp
    rcases hp with rfl | rfl | rfl | rfl | rfl | rfl
    · rw [hx1] at hnone; exact Option.noConfusion hnone
    · rw [hx2] at hnone; exact Option.noConfusion hnone
    · rw [hx3] at hnone; exact Option.noConfusion hnone
    · rw [hx4] at hnone; exact Option.noConfusion hnone
    · rw [hx5] at hnone; exact Option.noConfusion hnone
    · rw [hx6] at hnone; exact Option.noConfusion hnone

/-- Witness for C6 at an artifact directory missing cflow.txt and
holding a previously written bundle file. -/
theorem c6_missing_artifact_fatal_witness :
    (∃ p ∈ sixArtifactPaths "demo", alookup c6FS.files p = none) ∧
    (∃ p, p ∈ sixArtifactPaths "demo" ∧ alookup c6FS.files p = none ∧
      combine_main ["combine.py", "demo"] c6FS =
        ⟨makedirs c6FS (combinedDir "demo"), [], Term.raised (PyErr.fileNotFound p)⟩ ∧
      (combine_main ["combine.py", "demo"] c6FS).fs.files = c6FS.files) :=
  ⟨⟨rawDir "demo" ++ "/cflow.txt", by decide, by decide⟩,
   c6_missing_artifact_fatal c6FS "demo" ⟨rawDir "demo" ++ "/cflow.txt", by decide, by decide⟩⟩

/-! Claim C2: a malformed AST artifact aborts the whole build. -/

/-- C2: on an artifact directory where one of two discovered AST
artifacts holds invalid JSON, the builder terminates with an uncaught
JSONDecodeError and writes nothing: no bundle.json appears and no
error placeholder is stored, so the one malformed file loses the
whole bundle (contrary to the resilience behavior the specification
describes). -/
theorem c2_malformed_ast_aborts :
    combine_main ["combine.py", "demo"] c2FS =
      ⟨makedirs c2FS (combinedDir "demo"), [], Term.raised PyErr.jsonDecode⟩ ∧
    alookup (combine_main ["combine.py", "demo"] c2FS).fs.files
      (combinedDir "demo" ++ "/bundle.json") = none ∧
    pyJsonLoads "\x7b\"type\": " = Except.error PyErr.jsonDecode :=
  ⟨rfl, rfl, rfl⟩

/-! Claim C5: derivation of AST map keys from artifact filenames. -/

theorem containsSub_of_prefix_at_suffix {pat t s : List Char}
    (ht : t <:+ s) (hp : pat.isPrefixOf t = true) : containsSub pat s = true := by
  induction s with
  | nil =>
    rw [List.suffix_nil] at ht
    subst ht
    cases pat with
    | nil => rfl
    | cons p ps => simp [List.isPrefixOf] at hp
  | cons c s' ih =>
    rw [List.suffix_cons_iff] at ht
    rcases ht with rfl | ht
    · simp [containsSub, hp]
    · simp [containsSub, ih ht]

theorem foldl_basename_no_slash (s : List Char) (acc : List Char)
    (h : ∀ c ∈ s, c ≠ '/') :
    s.foldl (fun acc c => if c = '/' then [] else acc ++ [c]) acc = acc ++ s := by
  induction s generalizing acc with
  | nil => simp
  | cons c rest ih =>
    simp only [List.foldl_cons]
    rw [if_neg (h c (List.mem_cons_self c rest))]
    rw [ih _ (fun d hd => h d (List.mem_cons_of_mem _ hd))]
    simp

theorem basenameL_no_slash {s : List Char} (h : ∀ c ∈ s, c ≠ '/') : basenameL s = s := by
  rw [basenameL, foldl_basename_no_slash s [] h, List.nil_append]

theorem replaceAllAux_nil (fuel : Nat) (pat repl : List Char) :
    replaceAllAux fuel pat repl [] = [] := by
  cases fuel <;> rfl

theorem noStartP_stem {pat stem : List Char}
    (hno : containsSub pat stem = false)
    (hnb : ∀ k, k < pat.length → 1 ≤ k → pat.isPrefixOf (pat.take k ++ pat) = false) :
    noStartP pat stem pat := by
  intro t ht hne
  rcases Nat.lt_or_ge t.length pat.length with hlt | hge
  · cases hp : pat.isPrefixOf (t ++ pat) with
    | false => rfl
    | true =>
      rcases isPrefixOf_append_split hp with h1 | h1
      · have hteq : t = pat.take t.length :=
          List.prefix_iff_eq_take.mp (List.isPrefixOf_iff_prefix.mp h1)
        have := hnb t.length hlt (by cases t with
          | nil => exact absurd rfl hne
          | cons a b => simp)
        rw [← hteq] at this
        rw [this] at hp
        exact Bool.noConfusion hp
      · exact absurd (length_le_of_isPrefixOf h1) (by omega)
  · rw [isPrefixOf_append_of_le pat t pat hge]
    cases hp : pat.isPrefixOf t with
    | false => rfl
    | true =>
      rw [containsSub_of_prefix_at_suffix ht hp] at hno
      exact Bool.noConfusion hno

theorem replaceAllAux_strip {pat : List Char} (hpat : pat ≠ []) :
    ∀ fuel stem, stem.length + 1 ≤ fuel → noStartP pat stem pat →
      replaceAllAux fuel pat [] (stem ++ pat) = stem := by
  intro fuel
  induction fuel with
  | zero => intro stem hlen; omega
  | succ f ih =>
    intro stem hlen hns
    cases stem with
    | nil =>
      simp only [List.nil_append]
      cases pat with
      | nil => exact absurd rfl hpat
      | cons p ps =>
        rw [replaceAllAux]
        have hself : (p :: ps).isPrefixOf (p :: ps) = true := by
          have := isPrefixOf_self_append (p :: ps) []
          simp only [List.append_nil] at this
          exact this
        rw [if_pos hself, List.drop_length, replaceAllAux_nil, List.nil_append]
    | cons c stem' =>
      rw [List.cons_append, replaceAllAux]
      have hfalse : pat.isPrefixOf (c :: (stem' ++ pat)) = false := by
        rw [← List.cons_append]
        exact hns (c :: stem') (List.suffix_refl _) (by simp)
      rw [if_neg (by simp [hfalse])]
      rw [ih stem' (by simpa using Nat.le_of_succ_le_succ hlen)
        (fun t ht hne => hns t (ht.trans (List.suffix_cons c stem')) hne)]

theorem astSuffix_no_border :
    ∀ k, k < (".ast.json".toList).length → 1 ≤ k →
      (".ast.json".toList).isPrefixOf ((".ast.json".toList).take k ++ ".ast.json".toList) =
        false := by
  decide

/-- C5 counterexample: on the discovered artifact path ending in
x.ast.json.ast.json the key the builder stores is x, while the
specified derivation (only the one trailing suffix stripped from the
basename) yields x.ast.json; str.replace removes every occurrence of
the suffix text, not only the trailing one. -/
theorem c5_key_derivation_counterexample :
    astKeyOfPath "../outputs/raw/demo/x.ast.json.ast.json" = "x" ∧
    stripAstSuffixSpec (pyBasename "../outputs/raw/demo/x.ast.json.ast.json") = "x.ast.json" ∧
    astKeyOfPath "../outputs/raw/demo/x.ast.json.ast.json" ≠
      stripAstSuffixSpec (pyBasename "../outputs/raw/demo/x.ast.json.ast.json") := by
  refine ⟨rfl, rfl, ?_⟩
  decide

/-- C5 (amended): for every artifact path of the form stem followed
by the suffix text, where the stem is slash-free and does not itself
contain the suffix text as a substring, the key the builder stores is
exactly the stem. On filenames in which the suffix text also occurs
before the end, str.replace removes the inner occurrences as well, so
the unrestricted claim fails. -/
theorem c5_key_derivation_amended (stem : String)
    (hin : containsSub ".ast.json".toList stem.toList = false)
    (hsl : ∀ c ∈ stem.toList, c ≠ '/') :
    astKeyOfPath (stem ++ ".ast.json") = stem := by
  rw [astKeyOfPath]
  have hb : pyBasename (stem ++ ".ast.json") = stem ++ ".ast.json" := by
    rw [pyBasename, basenameL_no_slash, asString_toList]
    rw [toList_append]
    intro c hc
    rcases List.mem_append.mp hc with h1 | h1
    · exact hsl c h1
    · intro he
      subst he
      simp at h1
  rw [hb, pyReplace, toList_append]
  rw [show ("" : String).toList = [] from rfl]
  rw [replaceAllAux_strip (by decide) _ stem.toList
    (by
      rw [List.length_append]
      have h9 : (".ast.json".toList).length = 9 := rfl
      omega)
    (noStartP_stem hin astSuffix_no_border)]
  exact asString_toList stem

/-- Witness for the amended C5 at the stem foo.c. -/
theorem c5_key_derivation_amended_witness :
    (containsSub ".ast.json".toList "foo.c".toList = false ∧
     ∀ c ∈ "foo.c".toList, c ≠ '/') ∧
    astKeyOfPath ("foo.c" ++ ".ast.json") = "foo.c" :=
  ⟨⟨by decide, by decide⟩, c5_key_derivation_amended "foo.c" (by decide) (by decide)⟩

/-! Claim C10: behavior of the renderer on bundles with missing or
odd-typed keys. -/

/-- C10 counterexample: on a JSON object whose files key holds a
number, generate_html_template does not return a document at all; the
len call on the number raises TypeError, so the unrestricted claim
that every JSON object yields a complete HTML string fails. -/
theorem c10_missing_keys_counterexample :
    generate_html_template "demo" "T" c10Bundle = Except.error PyErr.typeError := rfl

/-- C10 (amended): missing keys are safe — dict.get supplies an empty
list for files, an empty mapping for ast, and each absent text field
renders as its fixed placeholder, so on the empty bundle a complete
document with all placeholders is produced; more generally the
renderer returns a complete document whenever the files and ast
values (after defaulting) carry a length. A files or ast value
without a length (such as a number) still raises TypeError, so the
no-exception guarantee does not extend to every JSON object. -/
theorem c10_missing_keys_amended :
    (∀ (bundle : List (String × Json)) (repo now : String) (fl al : List Json),
      pySized (jgetD bundle "files" (Json.arr [])) = some fl →
      pySized (jgetD bundle "ast" (Json.obj [])) = some al →
      ∃ html, generate_html_template repo now bundle = Except.ok html) ∧
    (∀ repo now : String,
      generate_html_template repo now [] =
        Except.ok
          (htmlT0 ++ repo ++ htmlT1 ++ repo ++ htmlT2 ++ now ++
           htmlT3 ++ "0" ++ htmlT4 ++ "0" ++
           htmlT5 ++ "0" ++ htmlT6 ++ "" ++
           htmlT7 ++ "No call graph data" ++
           htmlT8 ++ "No ctags data" ++
           htmlT9 ++ "No clang-tidy data" ++
           htmlT10 ++ "No cppcheck data" ++
           htmlT11 ++ "No complexity data" ++
           htmlT12 ++ "0" ++ htmlT13 ++ "0" ++
           htmlT14 ++ "\x7b\x7d" ++ htmlT15)) := by
  constructor
  · intro bundle repo now fl al hf ha
    rw [generate_html_template]
    simp only [bind, Except.bind, pyLen, pyIter, hf, ha]
    exact ⟨_, rfl⟩
  · intro repo now
    rfl

/-- Witness for the amended C10 at a bundle holding only a files
list. -/
theorem c10_missing_keys_amended_witness :
    (pySized (jgetD [("files", Json.arr [Json.str "a.c"])] "files" (Json.arr [])) =
       some [Json.str "a.c"] ∧
     pySized (jgetD [("files", Json.arr [Json.str "a.c"])] "ast" (Json.obj [])) = some []) ∧
    (∃ html, generate_html_template "demo" "T" [("files", Json.arr [Json.str "a.c"])] =
       Except.ok html) :=
  ⟨⟨rfl, rfl⟩,
   c10_missing_keys_amended.1 [("files", Json.arr [Json.str "a.c"])] "demo" "T"
     [Json.str "a.c"] [] rfl rfl⟩

/-! Claims C1 and C3: raw embedding of bundle text in the rendered
document, established by counting pattern occurrences chunk by
chunk. -/

theorem count_step {pat x y : List Char}
    (hx : crossCleanB pat x (y.take pat.length) = true) :
    countSub pat (x ++ y) = countSub pat x + countSub pat y :=
  countSub_append (crossCleanB_spec hx)

theorem countSub_flatten (pat : List Char) (chunks : List (List Char))
    (h : chainCrossClean pat chunks = true) :
    countSub pat chunks.flatten = (chunks.map (countSub pat)).sum := by
  induction chunks with
  | nil => rfl
  | cons x rest ih =>
    simp only [chainCrossClean, Bool.and_eq_true] at h
    simp only [List.flatten_cons, List.map_cons, List.sum_cons]
    rw [count_step h.1, ih h.2]

/-- C1 counterexample evidence: on a bundle whose callgraph text is
the marked-up string with angle brackets and an ampersand, the
rendered document embeds that text verbatim inside the pre block (the
raw sequence occurs exactly once), and no HTML-escaped form of the
angle bracket or the ampersand occurs anywhere in the document: the
fields are interpolated into the template without escaping, so
content containing markup characters breaks the document. -/
theorem c1_fields_not_escaped :
    ∃ html, generate_html_template "demo" "TS" c1Bundle = Except.ok html ∧
      countSub "<pre><b>&</pre>".toList html.toList = 1 ∧
      countSub "&lt;".toList html.toList = 0 ∧
      countSub "&amp;".toList html.toList = 0 := by
  have hmerge : ∀ r : List Char,
      htmlT7.toList ++ ("<b>&".toList ++ (htmlT8.toList ++ r)) =
        htmlT7a.toList ++ ("<pre><b>&</pre>".toList ++ (htmlT8a.toList ++ r)) := by
    intro r
    simp only [← List.append_assoc]
    rfl
  have hgen : generate_html_template "demo" "TS" c1Bundle = Except.ok
      (htmlT0 ++ "demo" ++ htmlT1 ++ "demo" ++ htmlT2 ++ "TS" ++
       htmlT3 ++ "0" ++ htmlT4 ++ "0" ++
       htmlT5 ++ "0" ++ htmlT6 ++ "" ++
       htmlT7 ++ "<b>&" ++
       htmlT8 ++ "No ctags data" ++
       htmlT9 ++ "No clang-tidy data" ++
       htmlT10 ++ "No cppcheck data" ++
       htmlT11 ++ "No complexity data" ++
       htmlT12 ++ "0" ++ htmlT13 ++ "0" ++
       htmlT14 ++ "\x7b\x7d" ++ htmlT15) := rfl
  have hsplit : (htmlT0 ++ "demo" ++ htmlT1 ++ "demo" ++ htmlT2 ++ "TS" ++
       htmlT3 ++ "0" ++ htmlT4 ++ "0" ++
       htmlT5 ++ "0" ++ htmlT6 ++ "" ++
       htmlT7 ++ "<b>&" ++
       htmlT8 ++ "No ctags data" ++
       htmlT9 ++ "No clang-tidy data" ++
       htmlT10 ++ "No cppcheck data" ++
       htmlT11 ++ "No complexity data" ++
       htmlT12 ++ "0" ++ htmlT13 ++ "0" ++
       htmlT14 ++ "\x7b\x7d" ++ htmlT15).toList = c1Chunks.flatten := by
    simp only [toList_append, List.append_assoc]
    conv_lhs => rw [(List.take_append_drop 1700 htmlT1.toList).symm]
    simp only [List.append_assoc]
    rw [hmerge]
    rw [c1Chunks]
    simp only [List.flatten_cons, List.flatten_nil, List.append_nil]
  refine ⟨_, hgen, ?_, ?_, ?_⟩
  · rw [hsplit, countSub_flatten "<pre><b>&</pre>".toList c1Chunks (by decide)]
    decide
  · rw [hsplit, countSub_flatten "&lt;".toList c1Chunks (by decide)]
    decide
  · rw [hsplit, countSub_flatten "&amp;".toList c1Chunks (by decide)]
    decide

/-- C3 counterexample evidence: on a bundle whose ast dictionary holds
a string value containing the script-closing sequence, the rendered
document contains that sequence twice — once as the template's own
closing tag and once inside the inline JSON literal — and never in an
escaped form: json.dumps output is embedded into the script block
without escaping, so the embedded data terminates the script block
prematurely. -/
theorem c3_script_embedding_unescaped :
    ∃ html, generate_html_template "demo" "TS" c3Bundle = Except.ok html ∧
      countSub "</script>".toList html.toList = 2 ∧
      countSub "<\\/script>".toList html.toList = 0 := by
  have hgen : generate_html_template "demo" "TS" c3Bundle = Except.ok
      (htmlT0 ++ "demo" ++ htmlT1 ++ "demo" ++ htmlT2 ++ "TS" ++
       htmlT3 ++ "0" ++ htmlT4 ++ "1" ++
       htmlT5 ++ "0" ++ htmlT6 ++ "" ++
       htmlT7 ++ "No call graph data" ++
       htmlT8 ++ "No ctags data" ++
       htmlT9 ++ "No clang-tidy data" ++
       htmlT10 ++ "No cppcheck data" ++
       htmlT11 ++ "No complexity data" ++
       htmlT12 ++ "1" ++ htmlT13 ++ "1" ++
       htmlT14 ++ "\x7b\"a.c\": \"</script>\"\x7d" ++ htmlT15) := rfl
  have hsplit : (htmlT0 ++ "demo" ++ htmlT1 ++ "demo" ++ htmlT2 ++ "TS" ++
       htmlT3 ++ "0" ++ htmlT4 ++ "1" ++
       htmlT5 ++ "0" ++ htmlT6 ++ "" ++
       htmlT7 ++ "No call graph data" ++
       htmlT8 ++ "No ctags data" ++
       htmlT9 ++ "No clang-tidy data" ++
       htmlT10 ++ "No cppcheck data" ++
       htmlT11 ++ "No complexity data" ++
       htmlT12 ++ "1" ++ htmlT13 ++ "1" ++
       htmlT14 ++ "\x7b\"a.c\": \"</script>\"\x7d" ++ htmlT15).toList = c3Chunks.flatten := by
    simp only [toList_append, List.append_assoc]
    conv_lhs => rw [(List.take_append_drop 1700 htmlT1.toList).symm]
    simp only [List.append_assoc]
    rw [c3Chunks]
    simp only [List.flatten_cons, List.flatten_nil, List.append_nil]
  refine ⟨_, hgen, ?_, ?_⟩
  · rw [hsplit, countSub_flatten "</script>".toList c3Chunks (by decide)]
    decide
  · rw [hsplit, countSub_flatten "<\\/script>".toList c3Chunks (by decide)]
    decide

/-! Claim C8: order of the rendered file list. -/

theorem combineBundle_fields {fs : FS} {repo : String} {b : Json} {filesTxt : String}
    (h1 : alookup fs.files (rawDir repo ++ "/files.txt") = some filesTxt)
    (h : combineBundle fs repo = Except.ok b) :
    ∃ cg ct cl cp cx astPairs, b = Json.obj
      [("files", Json.arr ((pySplitlines filesTxt).map Json.str)),
       ("callgraph", Json.str cg), ("ctags", Json.str ct), ("clang_tidy", Json.str cl),
       ("cppcheck", Json.str cp), ("complexity", Json.str cx),
       ("ast", Json.obj astPairs)] := by
  rw [combineBundle] at h
  rw [fsReadE_some h1] at h
  simp only [bind, Except.bind] at h
  cases h2 : fsReadE fs (rawDir repo ++ "/cflow.txt") with
  | error e => rw [h2] at h; exact Except.noConfusion h
  | ok cg =>
  rw [h2] at h
  simp only [bind, Except.bind] at h
  cases h3 : fsReadE fs (rawDir repo ++ "/ctags.txt") with
  | error e => rw [h3] at h; exact Except.noConfusion h
  | ok ct =>
  rw [h3] at h
  simp only [bind, Except.bind] at h
  cases h4 : fsReadE fs (rawDir repo ++ "/clang-tidy.txt") with
  | error e => rw [h4] at h; exact Except.noConfusion h
  | ok cl =>
  rw [h4] at h
  simp only [bind, Except.bind] at h
  cases h5 : fsReadE fs (rawDir repo ++ "/cppcheck.xml") with
  | error e => rw [h5] at h; exact Except.noConfusion h
  | ok cp =>
  rw [h5] at h
  simp only [bind, Except.bind] at h
  cases h6 : fsReadE fs (rawDir repo ++ "/complexity.txt") with
  | error e => rw [h6] at h; exact Except.noConfusion h
  | ok cx =>
  rw [h6] at h
  simp only [bind, Except.bind] at h
  cases h7 : loadAstFilesAux fs [] (globAstJson fs (rawDir repo)) with
  | error e => rw [h7] at h; exact Except.noConfusion h
  | ok astPairs =>
  rw [h7] at h
  simp only [bind, Except.bind, Except.ok.injEq] at h
  exact ⟨cg, ct, cl, cp, cx, astPairs, h.symm⟩

theorem noStartP_of_chunkClean {x : List Char} (h : chunkClean x = true) (y : List Char) :
    noStartP itemMarkerL x y := by
  intro t ht hne
  have hmem : t ∈ x.tails := (List.mem_tails _ _).mpr ht
  have hc := List.all_eq_true.mp h t hmem
  rcases Bool.or_eq_true _ _ |>.mp hc with h1 | h1
  · exact absurd (List.isEmpty_iff.mp h1) hne
  · simp only [Bool.and_eq_true, Bool.not_eq_true'] at h1
    cases hp : itemMarkerL.isPrefixOf (t ++ y) with
    | false => rfl
    | true =>
      rcases isPrefixOf_append_split hp with h2 | h2
      · rw [h1.1] at h2; exact Bool.noConfusion h2
      · rw [h1.2] at h2; exact Bool.noConfusion h2

theorem noPrefAll_of_chunkClean {x : List Char} (h : chunkClean x = true) : noPrefAll x := by
  intro t ht
  have hmem : t ∈ x.tails := (List.mem_tails _ _).mpr ht
  have hc := List.all_eq_true.mp h t hmem
  rcases Bool.or_eq_true _ _ |>.mp hc with h1 | h1
  · have : t = [] := List.isEmpty_iff.mp h1
    subst this
    rfl
  · simp only [Bool.and_eq_true, Bool.not_eq_true'] at h1
    exact h1.2

theorem noPrefAll_append {a b : List Char}
    (ha : noStartP itemMarkerL a b) (hb : noPrefAll b) : noPrefAll (a ++ b) := by
  intro t ht
  rcases suffix_append_cases ht with h1 | ⟨ta, hta, htane, rfl⟩
  · exact hb t h1
  · exact ha ta hta htane

theorem noStartP_marker_nolt {x : List Char} (h : ∀ c ∈ x, c ≠ '<') (y : List Char) :
    noStartP itemMarkerL x y :=
  noStartP_of_not_mem h

theorem extract_skip {x y : List Char} (hx : noStartP itemMarkerL x y) :
    ∀ fuel, extractItemsF (x.length + fuel) (x ++ y) = extractItemsF fuel y := by
  induction x with
  | nil => intro fuel; simp
  | cons c x' ih =>
    intro fuel
    rw [show (c :: x').length + fuel = x'.length + fuel + 1 from by
      simp only [List.length_cons]; omega]
    rw [List.cons_append, extractItemsF]
    have hfalse : itemMarkerL.isPrefixOf (c :: (x' ++ y)) = false := by
      rw [← List.cons_append]
      exact hx (c :: x') (List.suffix_refl _) (by simp)
    rw [if_neg (by simp [hfalse])]
    exact ih (fun t ht hne => hx t (ht.trans (List.suffix_cons c x')) hne) fuel

theorem extract_skip_clean (x : List Char) (h : chunkClean x = true) (y : List Char)
    (fuel : Nat) : extractItemsF (x.length + fuel) (x ++ y) = extractItemsF fuel y :=
  extract_skip (noStartP_of_chunkClean h y) fuel

theorem extract_skip_nolt {x : List Char} (h : ∀ c ∈ x, c ≠ '<') (y : List Char)
    (fuel : Nat) : extractItemsF (x.length + fuel) (x ++ y) = extractItemsF fuel y :=
  extract_skip (noStartP_marker_nolt h y) fuel

theorem extract_none {s : List Char} (h : noPrefAll s) : ∀ fuel, extractItemsF fuel s = [] := by
  induction s with
  | nil => intro fuel; cases fuel <;> rfl
  | cons c rest ih =>
    intro fuel
    cases fuel with
    | zero => rfl
    | succ f =>
      rw [extractItemsF]
      rw [if_neg (by simp [h (c :: rest) (List.suffix_refl _)])]
      exact ih (fun t ht => h t (ht.trans (List.suffix_cons c rest))) f

theorem extractItemsF_marker (fuel : Nat) (X : List Char) :
    extractItemsF (fuel + 1) (itemMarkerL ++ X) =
      (takeUntilSub closeDivL X).asString :: extractItemsF fuel X := by
  rw [show itemMarkerL ++ X = '<' :: ("div class=\"file-item\">".toList ++ X) from rfl]
  rw [extractItemsF]
  rw [if_pos (show itemMarkerL.isPrefixOf
    ('<' :: ("div class=\"file-item\">".toList ++ X)) = true from
    isPrefixOf_self_append itemMarkerL X)]
  rfl

theorem takeUntil_skip {p : Char} {ps x y : List Char} (h : ∀ c ∈ x, c ≠ p) :
    takeUntilSub (p :: ps) (x ++ ((p :: ps) ++ y)) = x := by
  induction x with
  | nil =>
    simp only [List.nil_append]
    rw [List.cons_append, takeUntilSub]
    rw [if_pos (show (p :: ps).isPrefixOf (p :: (ps ++ y)) = true from
      isPrefixOf_self_append (p :: ps) y)]
  | cons c x' ih =>
    rw [List.cons_append, takeUntilSub]
    have hfalse : (p :: ps).isPrefixOf (c :: (x' ++ ((p :: ps) ++ y))) = false := by
      have hpc : (p == c) = false :=
        beq_eq_false_iff_ne.mpr (fun hp => h c (List.mem_cons_self c x') hp.symm)
      simp [List.isPrefixOf, hpc]
    rw [if_neg (by simp only [hfalse]; exact Bool.false_ne_true)]
    rw [ih (fun d hd => h d (List.mem_cons_of_mem _ hd))]

theorem extract_blocks :
    ∀ (lines : List String) (tail : List Char) (fuel : Nat),
      (∀ l ∈ lines, ∀ c ∈ l.toList, c ≠ '<') →
      noPrefAll tail →
      ((lines.map (fun l => itemMarkerL ++ (l.toList ++ closeDivL))).flatten ++ tail).length
        ≤ fuel →
      extractItemsF fuel
        ((lines.map (fun l => itemMarkerL ++ (l.toList ++ closeDivL))).flatten ++ tail) =
        lines := by
  intro lines
  induction lines with
  | nil =>
    intro tail fuel hlines htail hfuel
    simp only [List.map_nil, List.flatten_nil, List.nil_append]
    exact extract_none htail fuel
  | cons l ls ih =>
    intro tail fuel hlines htail hfuel
    simp only [List.map_cons, List.flatten_cons, List.append_assoc] at hfuel ⊢
    cases fuel with
    | zero =>
      exfalso
      simp only [List.length_append] at hfuel
      have h23 : itemMarkerL.length = 23 := rfl
      omega
    | succ f =>
      rw [extractItemsF_marker]
      have hl : ∀ c ∈ l.toList, c ≠ '<' := hlines l (List.mem_cons_self l ls)
      have htu : takeUntilSub closeDivL
          (l.toList ++ (closeDivL ++
            ((ls.map (fun l => itemMarkerL ++ (l.toList ++ closeDivL))).flatten ++ tail))) =
          l.toList := by
        rw [show (closeDivL : List Char) = '<' :: "/div>".toList from rfl]
        exact takeUntil_skip hl
      rw [htu, asString_toList]
      have hk : ∃ k, f = l.toList.length + (closeDivL.length + k) := by
        refine ⟨f - l.toList.length - closeDivL.length, ?_⟩
        simp only [List.length_append] at hfuel
        have h23 : itemMarkerL.length = 23 := rfl
        have h6 : (closeDivL : List Char).length = 6 := rfl
        omega
      obtain ⟨k, hk⟩ := hk
      rw [hk]
      rw [extract_skip (noStartP_marker_nolt hl _)]
      rw [extract_skip (noStartP_of_chunkClean (by decide) _)]
      have hrest : ((ls.map (fun l => itemMarkerL ++ (l.toList ++ closeDivL))).flatten ++
          tail).length ≤ k := by
        simp only [List.length_append] at hfuel ⊢
        have h23 : itemMarkerL.length = 23 := rfl
        have h6 : (closeDivL : List Char).length = 6 := rfl
        omega
      rw [ih tail k (fun l2 hl2 => hlines l2 (List.mem_cons_of_mem _ hl2)) htail hrest]

theorem natStr_no_lt (n : Nat) : ∀ c ∈ (natStr n).toList, c ≠ '<' := by
  intro c hc
  rw [natStr, toList_asString] at hc
  have hd : isDigitC c = true :=
    natToDigits_all_digits (n + 1) n [] (by intro d hd; simp at hd) c hc
  intro he
  subst he
  exact absurd hd (by decide)

theorem join_foldl_toList (L : List String) :
    ∀ acc : String,
      (L.foldl (fun r s => r ++ s) acc).toList = acc.toList ++ (L.map String.toList).flatten := by
  induction L with
  | nil => intro acc; simp
  | cons x xs ih =>
    intro acc
    simp only [List.foldl_cons, List.map_cons, List.flatten_cons]
    rw [ih (acc ++ x), toList_append]
    simp [List.append_assoc]

theorem join_toList (L : List String) :
    (String.join L).toList = (L.map String.toList).flatten := by
  rw [String.join, join_foldl_toList L ""]
  rw [show ("" : String).toList = [] from rfl, List.nil_append]

theorem fileItems_toList (lines : List String) :
    (String.join (lines.map (fun l => "<div class=\"file-item\">" ++ l ++ "</div>"))).toList =
      (lines.map (fun l => itemMarkerL ++ (l.toList ++ closeDivL))).flatten := by
  rw [join_toList, List.map_map]
  have hfun : (String.toList ∘ fun l => "<div class=\"file-item\">" ++ l ++ "</div>") =
      (fun l : String => itemMarkerL ++ (l.toList ++ closeDivL)) := by
    funext l
    simp only [Function.comp]
    rw [toList_append, toList_append]
    simp only [List.append_assoc]
    rfl
  rw [hfun]

/-- C8: for every artifact set from which the builder succeeds, the
files field of the bundle is exactly the line order of files.txt, and
the file names rendered in the file-list section of the document
appear in exactly that order — no sorting or reordering at either
stage. The cleanliness hypotheses (no left angle bracket in the
repository name, timestamp, text fields, AST dump or file names) pin
down the entry boundaries so that the rendered order is read off the
document itself. -/
theorem c8_file_order_preserved (fs : FS) (repo now filesTxt : String)
    (fields : List (String × Json))
    (hread : alookup fs.files (rawDir repo ++ "/files.txt") = some filesTxt)
    (hok : combineBundle fs repo = Except.ok (Json.obj fields))
    (hclean : ∀ s ∈ [repo, now,
        getText fields "callgraph" "No call graph data",
        getText fields "ctags" "No ctags data",
        getText fields "clang_tidy" "No clang-tidy data",
        getText fields "cppcheck" "No cppcheck data",
        getText fields "complexity" "No complexity data",
        pyJsonDumps none (jgetD fields "ast" (Json.obj []))],
      ∀ c ∈ s.toList, c ≠ '<')
    (hlines : ∀ l ∈ pySplitlines filesTxt, ∀ c ∈ l.toList, c ≠ '<') :
    jgetD fields "files" (Json.arr []) =
      Json.arr ((pySplitlines filesTxt).map Json.str) ∧
    ∃ html, generate_html_template repo now fields = Except.ok html ∧
      extractFileItems html = pySplitlines filesTxt := by
  obtain ⟨cg, ct, cl, cp, cx, astPairs, hbe⟩ := combineBundle_fields hread hok
  have hfe : fields = [("files", Json.arr ((pySplitlines filesTxt).map Json.str)),
      ("callgraph", Json.str cg), ("ctags", Json.str ct), ("clang_tidy", Json.str cl),
      ("cppcheck", Json.str cp), ("complexity", Json.str cx),
      ("ast", Json.obj astPairs)] := by
    simpa using hbe
  have hfil : jgetD fields "files" (Json.arr []) =
      Json.arr ((pySplitlines filesTxt).map Json.str) := by
    rw [hfe]
    rfl
  have hastv : jgetD fields "ast" (Json.obj []) = Json.obj astPairs := by
    rw [hfe]
    rfl
  have hgen : generate_html_template repo now fields = Except.ok
      (htmlT0 ++ repo ++ htmlT1 ++ repo ++ htmlT2 ++ now ++
       htmlT3 ++ natStr ((pySplitlines filesTxt).map Json.str).length ++ htmlT4 ++
       natStr (astPairs.map (fun kv => Json.str kv.1)).length ++
       htmlT5 ++ natStr ((pySplitlines filesTxt).map Json.str).length ++ htmlT6 ++
       String.join (((pySplitlines filesTxt).map Json.str).map
         (fun f => "<div class=\"file-item\">" ++ pyStr f ++ "</div>")) ++
       htmlT7 ++ getText fields "callgraph" "No call graph data" ++
       htmlT8 ++ getText fields "ctags" "No ctags data" ++
       htmlT9 ++ getText fields "clang_tidy" "No clang-tidy data" ++
       htmlT10 ++ getText fields "cppcheck" "No cppcheck data" ++
       htmlT11 ++ getText fields "complexity" "No complexity data" ++
       htmlT12 ++ natStr (astPairs.map (fun kv => Json.str kv.1)).length ++
       htmlT13 ++ natStr (astPairs.map (fun kv => Json.str kv.1)).length ++
       htmlT14 ++ pyJsonDumps none (jgetD fields "ast" (Json.obj [])) ++ htmlT15) := by
    rw [generate_html_template]
    simp only [bind, Except.bind, hfil, hastv, pyLen, pyIter, pySized]
  refine ⟨hfil, _, hgen, ?_⟩
  have hmm : (((pySplitlines filesTxt).map Json.str).map
        (fun f => "<div class=\"file-item\">" ++ pyStr f ++ "</div>")) =
      (pySplitlines filesTxt).map (fun l => "<div class=\"file-item\">" ++ l ++ "</div>") := by
    rw [List.map_map]
    rfl
  rw [extractFileItems, hmm]
  simp only [toList_append, List.append_assoc]
  rw [fileItems_toList]
  rw [(List.take_append_drop 1700 htmlT1.toList).symm]
  simp only [List.append_assoc, List.length_append]
  rw [extract_skip_clean htmlT0.toList (by decide)]
  rw [extract_skip_nolt (hclean repo (by simp))]
  rw [extract_skip_clean (htmlT1.toList.take 1700) (by decide)]
  rw [extract_skip_clean (htmlT1.toList.drop 1700) (by decide)]
  rw [extract_skip_nolt (hclean repo (by simp))]
  rw [extract_skip_clean htmlT2.toList (by decide)]
  rw [extract_skip_nolt (hclean now (by simp))]
  rw [extract_skip_clean htmlT3.toList (by decide)]
  rw [extract_skip_nolt (natStr_no_lt _)]
  rw [extract_skip_clean htmlT4.toList (by decide)]
  rw [extract_skip_nolt (natStr_no_lt _)]
  rw [extract_skip_clean htmlT5.toList (by decide)]
  rw [extract_skip_nolt (natStr_no_lt _)]
  rw [extract_skip_clean htmlT6.toList (by decide)]
  refine extract_blocks _ _ _ hlines ?_ ?_
  · refine noPrefAll_append (noStartP_of_chunkClean (by decide) _) ?_
    refine noPrefAll_append (noStartP_marker_nolt (hclean _ (by simp)) _) ?_
    refine noPrefAll_append (noStartP_of_chunkClean (by decide) _) ?_
    refine noPrefAll_append (noStartP_marker_nolt (hclean _ (by simp)) _) ?_
    refine noPrefAll_append (noStartP_of_chunkClean (by decide) _) ?_
    refine noPrefAll_append (noStartP_marker_nolt (hclean _ (by simp)) _) ?_
    refine noPrefAll_append (noStartP_of_chunkClean (by decide) _) ?_
    refine noPrefAll_append (noStartP_marker_nolt (hclean _ (by simp)) _) ?_
    refine noPrefAll_append (noStartP_of_chunkClean (by decide) _) ?_
    refine noPrefAll_append (noStartP_marker_nolt (hclean _ (by simp)) _) ?_
    refine noPrefAll_append (noStartP_of_chunkClean (by decide) _) ?_
    refine noPrefAll_append (noStartP_marker_nolt (natStr_no_lt _) _) ?_
    refine noPrefAll_append (noStartP_of_chunkClean (by decide) _) ?_
    refine noPrefAll_append (noStartP_marker_nolt (natStr_no_lt _) _) ?_
    refine noPrefAll_append (noStartP_of_chunkClean (by decide) _) ?_
    refine noPrefAll_append (noStartP_marker_nolt (hclean _ (by simp)) _) ?_
    exact noPrefAll_of_chunkClean (by decide)
  · simp [List.length_append]

/-- Witness for C8 at the artifact set c8FS, whose files.txt lists
b.c, a.c, z.c in deliberately unsorted order. -/
theorem c8_file_order_preserved_witness :
    (alookup c8FS.files (rawDir "demo" ++ "/files.txt") = some "b.c\na.c\nz.c" ∧
     combineBundle c8FS "demo" = Except.ok (Json.obj
       [("files", Json.arr [Json.str "b.c", Json.str "a.c", Json.str "z.c"]),
        ("callgraph", Json.str "flow"), ("ctags", Json.str "tags"),
        ("clang_tidy", Json.str "tidy"), ("cppcheck", Json.str "xml"),
        ("complexity", Json.str "cx"), ("ast", Json.obj [])])) ∧
    (jgetD [("files", Json.arr [Json.str "b.c", Json.str "a.c", Json.str "z.c"]),
        ("callgraph", Json.str "flow"), ("ctags", Json.str "tags"),
        ("clang_tidy", Json.str "tidy"), ("cppcheck", Json.str "xml"),
        ("complexity", Json.str "cx"), ("ast", Json.obj [])] "files" (Json.arr []) =
      Json.arr ((pySplitlines "b.c\na.c\nz.c").map Json.str) ∧
     ∃ html, generate_html_template "demo" "T"
         [("files", Json.arr [Json.str "b.c", Json.str "a.c", Json.str "z.c"]),
          ("callgraph", Json.str "flow"), ("ctags", Json.str "tags"),
          ("clang_tidy", Json.str "tidy"), ("cppcheck", Json.str "xml"),
          ("complexity", Json.str "cx"), ("ast", Json.obj [])] = Except.ok html ∧
       extractFileItems html = pySplitlines "b.c\na.c\nz.c") :=
  ⟨⟨rfl, rfl⟩,
   c8_file_order_preserved c8FS "demo" "T" "b.c\na.c\nz.c"
     [("files", Json.arr [Json.str "b.c", Json.str "a.c", Json.str "z.c"]),
      ("callgraph", Json.str "flow"), ("ctags", Json.str "tags"),
      ("clang_tidy", Json.str "tidy"), ("cppcheck", Json.str "xml"),
      ("complexity", Json.str "cx"), ("ast", Json.obj [])]
     rfl rfl (by decide) (by decide)⟩
